import Mathlib

/-!
Verification of the oracall catalog-to-schema compiler core.

This file gives a shallow embedding of the three compiler stages
(CSV row reader, level-stack tree builder, annotation rewriter,
protobuf schema emitter) and proves the specified properties about it.

Pointer-manipulating Go code (`ParseArguments` builds the argument tree
through `*Argument` pointers held in a level map) is embedded with an
explicit heap: `Argument` nodes live in a `List Argument` and children
are referenced by index, so aliasing and in-place mutation behave
exactly as in the source.  Machine integers are `Nat`/`Int` with the
relevant wrap-arounds made explicit (`int8(ua.DataLevel)` wraps at 128).
Fatal `panic` calls in the source are embedded as `Except` errors.
-/

namespace Oracall

/-- Argument flavor: scalar leaf, record (named composite) or table (collection). -/
inductive Flavor where
  | simple
  | record
  | table
deriving DecidableEq, Repr

/-- An `Argument` IR node as stored on the heap.  `recordOf` holds the named
fields of a record (name and heap index, mirroring `NamedArgument`), and
`tableOf` the heap index of a table's sole element type. -/
structure Argument where
  name : String := ""
  direction : Nat := 0
  flavor : Flavor := Flavor.simple
  typ : String := ""
  plsType : String := ""
  absType : String := ""
  charset : String := ""
  precision : Nat := 0
  scale : Nat := 0
  charlength : Nat := 0
  tableOf : Option Nat := none
  recordOf : List (String × Nat) := []
deriving DecidableEq, Repr

/-- A raw `user_arguments` row (the `UserArgument` struct). -/
structure UserArgument where
  packageName : String := ""
  objectName : String := ""
  lastDDL : String := ""
  argumentName : String := ""
  inOut : String := ""
  dataType : String := ""
  characterSetName : String := ""
  plsType : String := ""
  typeLink : String := ""
  typeOwner : String := ""
  typeName : String := ""
  typeSubname : String := ""
  objectID : Nat := 0
  subprogramID : Nat := 0
  charLength : Nat := 0
  position : Nat := 0
  dataPrecision : Nat := 0
  dataScale : Nat := 0
  dataLevel : Nat := 0
deriving DecidableEq, Repr

/-- The compiled `Function` IR node.  `returns` and the entries of
`args`' `recordOf`/`tableOf` refer into the producing batch's heap.
The annotation-phase fields (`alias`, `replacement`, `handle`,
`maxTableSize`) are carried on the same struct, as in the source. -/
structure Function where
  Package : String := ""
  name : String := ""
  lastDDL : String := ""
  alias_ : String := ""
  returns : Option Nat := none
  args : List Argument := []
  replacement : Option String := none
  replacementIsJSON : Bool := false
  handle : List String := []
  maxTableSize : Int := 0
deriving DecidableEq, Repr

/-- Interpretation of a `uint8` value as Go's `int8` conversion
(two's complement wrap at 128), used for `level = int8(ua.DataLevel)`. -/
def toInt8 (n : Nat) : Int :=
  if n % 256 < 128 then ((n % 256 : Nat) : Int) else ((n % 256 : Nat) : Int) - 256

/-- Wrapping `int8` subtraction, used for the `lastArgs[level-1]` key. -/
def sub8 (a b : Int) : Int :=
  (a - b + 128) % 256 - 128

/-- Direction bitmask decoded from the `IN_OUT` column.
Modelled from the spec: the sources analysed here only declare a
direction bitmask with `IN`/`OUT`/`IN OUT`/none; `NewArgument` itself is
not among them. -/
def dirOf (inOut : String) : Nat :=
  if inOut = "IN" then 1
  else if inOut = "OUT" then 2
  else if inOut = "IN OUT" then 3
  else 0

/-- Flavor decoded from the `DATA_TYPE` column.
Modelled from the spec: `NewArgument` is not among the analysed sources;
per the spec, record rows carry a record type tag, collection rows a
table/varray tag, and everything else is a scalar leaf. -/
def flavorOfDataType (dataType : String) : Flavor :=
  if dataType = "PL/SQL RECORD" ∨ dataType = "RECORD" ∨ dataType = "OBJECT" then
    Flavor.record
  else if dataType = "PL/SQL TABLE" ∨ dataType = "TABLE" ∨ dataType = "VARRAY" then
    Flavor.table
  else Flavor.simple

/-- Freshly built `Argument` for one row.
Modelled from the spec: `NewArgument` is not among the analysed sources;
it fills the scalar fields from the row and derives flavor and
direction, with no children yet. -/
def NewArgument (name dataType plsType absType inOut charset : String)
    (precision scale charlength : Nat) : Argument :=
  { name := name
    direction := dirOf inOut
    flavor := flavorOfDataType dataType
    typ := dataType
    plsType := plsType
    absType := absType
    charset := charset
    precision := precision
    scale := scale
    charlength := charlength
    tableOf := none
    recordOf := [] }

/-- Fatal failures of the tree builder (`panic` sites in the source). -/
inductive BuildErr where
  | invalidHierarchy (level : Int)
  | emptyBatch
  | emptyName
deriving DecidableEq, Repr

/-- Mutable state of the per-batch loop: the heap of allocated
`Argument` nodes and the `lastArgs` level map (an association list
whose most recent binding for a key shadows older ones, like map
assignment). -/
structure BuildState where
  heap : List Argument
  lastArgs : List (Int × Nat)
deriving Repr

/-- Kernel-reduction-friendly `strings.HasPrefix`. -/
def startsWithS (s p : String) : Bool := List.isPrefixOf p.data s.data

/-- Kernel-reduction-friendly `strings.HasSuffix`. -/
def endsWithS (s p : String) : Bool := List.isSuffixOf p.data s.data

/-- Last character of a string (Go indexes the final byte; callers guard
against the empty string first). -/
def backS (s : String) : Char := s.data.getLastD 'A'

/-- Lookup in the level map. -/
def lookupL (la : List (Int × Nat)) (k : Int) : Option Nat :=
  (la.find? (fun p => p.1 = k)).map (·.2)

/-- Default node used for (provably unreachable) out-of-range heap reads. -/
def defaultArg : Argument := {}

/-- The `Argument` allocated for a row (the `NewArgument` call of the
row loop). -/
def argOf (ua : UserArgument) : Argument :=
  NewArgument ua.argumentName ua.dataType ua.plsType
    (ua.typeOwner ++ "." ++ ua.typeName ++ "." ++ ua.typeSubname ++ "@" ++ ua.typeLink)
    ua.inOut ua.characterSetName ua.dataPrecision ua.dataScale ua.charLength

/-- Attachment of a new child at heap index `idx` to a parent: the sole
element type of a table (overwriting), a trailing named record field
otherwise. -/
def attachTo (parent : Argument) (nm : String) (idx : Nat) : Argument :=
  if parent.flavor = Flavor.table then { parent with tableOf := some idx }
  else { parent with recordOf := parent.recordOf ++ [(nm, idx)] }

/-- The level map after a row is processed (non-simple nodes are
recorded at their level). -/
def la1Of (st : BuildState) (ua : UserArgument) : List (Int × Nat) :=
  if (argOf ua).flavor ≠ Flavor.simple then (toInt8 ua.dataLevel, st.heap.length) :: st.lastArgs
  else st.lastArgs

/-- One iteration of the row loop of `ParseArguments` (lines 297-339 of
the source): allocate the new `Argument`, record non-simple nodes in the
level map, divert an unnamed level-0 row to `Returns` (renamed `"ret"`),
otherwise attach to the parent found at `level-1` — into `TableOf` for a
table parent (overwriting), appended to `RecordOf` otherwise.  A nil
parent is the source's `panic`, embedded as `invalidHierarchy`. -/
def processRow (st : BuildState) (fn : Function) (ua : UserArgument) :
    Except BuildErr (BuildState × Function) :=
  let level : Int := toInt8 ua.dataLevel
  let arg := argOf ua
  let idx := st.heap.length
  let heap1 := st.heap ++ [arg]
  let la1 := if arg.flavor ≠ Flavor.simple then (level, idx) :: st.lastArgs else st.lastArgs
  if level = 0 ∧ fn.returns = none ∧ arg.name = "" then
    Except.ok (⟨heap1.set idx { arg with name := "ret" }, la1⟩,
      { fn with returns := some idx })
  else
    match lookupL la1 (sub8 level 1) with
    | none => Except.error (BuildErr.invalidHierarchy level)
    | some p =>
      let parent := heap1.getD p defaultArg
      if parent.flavor = Flavor.table then
        Except.ok (⟨heap1.set p { parent with tableOf := some idx }, la1⟩, fn)
      else
        Except.ok (⟨heap1.set p { parent with recordOf := parent.recordOf ++ [(arg.name, idx)] }, la1⟩, fn)

/-- The row loop, folded over the batch. -/
def processRows (st : BuildState) (fn : Function) :
    List UserArgument → Except BuildErr (BuildState × Function)
  | [] => Except.ok (st, fn)
  | ua :: rest =>
    match processRow st fn ua with
    | Except.error e => Except.error e
    | Except.ok (st', fn') => processRows st' fn' rest

/-- Result of compiling one batch: the `Function` and the heap its
argument tree lives in (the batch's implicit memory in the source). -/
structure FuncResult where
  fn : Function
  heap : List Argument
deriving Repr

/-- Compilation of one batch (the body of the `for uas := range userArgs`
loop of `ParseArguments`): skip hidden (`#`-suffixed) or filtered-out
objects, seed the level map with the synthetic record root at level
`-1`, run the row loop, then extract `Args` as the dereferenced fields
of the root, in attachment order.  An empty batch or empty object name
indexes out of range in the source and is embedded as an error. -/
def parseBatch (filter? : Option (String → Bool)) (uas : List UserArgument) :
    Except BuildErr (Option FuncResult) :=
  match uas with
  | [] => Except.error BuildErr.emptyBatch
  | ua0 :: _ =>
    if ua0.objectName = "" then Except.error BuildErr.emptyName
    else if backS ua0.objectName = '#' then Except.ok none
    else if (match filter? with | some f => !(f ua0.objectName) | none => false) then
      Except.ok none
    else
      let fn0 : Function :=
        { Package := ua0.packageName, name := ua0.objectName, lastDDL := ua0.lastDDL }
      let st0 : BuildState :=
        { heap := [{ flavor := Flavor.record }], lastArgs := [(-1, 0)] }
      match processRows st0 fn0 uas with
      | Except.error e => Except.error e
      | Except.ok (st, fn) =>
        let rootIdx := (lookupL st.lastArgs (-1)).getD 0
        let root := st.heap.getD rootIdx defaultArg
        let args := root.recordOf.map (fun p => st.heap.getD p.2 defaultArg)
        Except.ok (some { fn := { fn with args := args }, heap := st.heap })

/-- `ParseArguments` over the grouped batches (the channel is embedded
as the list of batches it delivers; the XML dump helper, log calls and
row counter of the source have no observable effect and are omitted). -/
def ParseArguments (batches : List (List UserArgument))
    (filter? : Option (String → Bool)) : Except BuildErr (List FuncResult) :=
  match batches with
  | [] => Except.ok []
  | uas :: rest =>
    match parseBatch filter? uas with
    | Except.error e => Except.error e
    | Except.ok none => ParseArguments rest filter?
    | Except.ok (some r) =>
      match ParseArguments rest filter? with
      | Except.error e => Except.error e
      | Except.ok rs => Except.ok (r :: rs)

/-! ## Annotation rewriter (`ApplyAnnotations`) -/

/-- ASCII model of `strings.ToLower` (identifiers in scope are ASCII;
`String.toLower` itself is opaque to kernel reduction). -/
def toLowerS (s : String) : String := String.mk (s.data.map Char.toLower)

/-- ASCII model of `strings.ToUpper`. -/
def toUpperS (s : String) : String := String.mk (s.data.map Char.toUpper)


/-- An annotation directive (the `Annotation` struct of the source). -/
structure Annot where
  Package : String := ""
  typ : String := ""
  name : String := ""
  other : String := ""
  size : Int := 0
deriving DecidableEq, Repr

/-- `Annotation.FullName`. -/
def Annot.FullName (a : Annot) : String :=
  if a.Package = "" ∨ a.name = "" then a.name else a.Package ++ "." ++ a.name

/-- `Annotation.FullOther`. -/
def Annot.FullOther (a : Annot) : String :=
  if a.Package = "" ∨ a.other = "" then a.other else a.Package ++ "." ++ a.other

/-- Modelled from the spec: `Function.RealName` is not among the analysed
sources; per the spec the Function set is "keyed case-insensitively by
package-qualified name", ignoring the alias. -/
def Function.RealName (f : Function) : String :=
  if f.Package = "" then f.name else f.Package ++ "." ++ f.name

/-- Modelled from the spec: `Function.Name` is not among the analysed
sources; per the spec the alias set by `rename` replaces the declared
name for downstream naming. -/
def Function.Name (f : Function) : String :=
  if f.alias_ = "" then f.RealName
  else if f.Package = "" then f.alias_ else f.Package ++ "." ++ f.alias_

/-- The case-insensitively keyed function map (`map[string]*Function`),
embedded as an association list with unique keys. -/
abbrev FMap : Type := List (String × Function)

/-- Map read, `funcs[k]` (`nil` for a missing key becomes `none`). -/
def mapGet (m : FMap) (k : String) : Option Function :=
  match m with
  | [] => none
  | p :: rest => if p.1 = k then some p.2 else mapGet rest k

/-- Key-membership test used by `mapSet`. -/
def mapHas (m : FMap) (k : String) : Bool :=
  match m with
  | [] => false
  | p :: rest => if p.1 = k then true else mapHas rest k

/-- Map write, `funcs[k] = v`: overwrite in place, insert otherwise. -/
def mapSet (m : FMap) (k : String) (v : Function) : FMap :=
  if mapHas m k then List.map (fun p => if p.1 = k then (k, v) else p) m
  else m ++ [(k, v)]

/-- Map delete, `delete(funcs, k)`. -/
def mapDel (m : FMap) (k : String) : FMap :=
  match m with
  | [] => []
  | p :: rest => if p.1 = k then mapDel rest k else p :: mapDel rest k

/-- One iteration of the annotation loop of `ApplyAnnotations` (lines
421-473 of the source): the three silent-skip guards, then the switch on
the annotation type.  The `Replacement` pointer is embedded as the
replaced function's key (a non-owning reference, as the spec's design
notes direct); `strings.EqualFold` is embedded as lower-cased equality. -/
def applyAnnot (funcs : FMap) (a : Annot) : FMap :=
  if a.name = "" ∨ a.typ = "" then funcs
  else if a.other = "" ∧ ¬(a.typ = "private" ∨ a.typ = "handle" ∨ a.typ = "max-table-size") then
    funcs
  else if a.size ≤ 0 ∧ a.typ = "max-table-size" then funcs
  else if a.typ = "private" then
    mapDel funcs (toLowerS a.FullName)
  else if a.typ = "rename" then
    match mapGet funcs (toLowerS a.FullName) with
    | none => funcs
    | some f =>
      mapSet (mapDel funcs (toLowerS a.FullName)) (toLowerS a.FullOther) { f with alias_ := a.other }
  else if a.typ = "replace" ∨ a.typ = "replace_json" then
    let k := (toLowerS a.FullName)
    let v := (toLowerS a.FullOther)
    match mapGet funcs k with
    | none => funcs
    | some f =>
      let f' := { f with
        replacement := (mapGet funcs v).map (fun _ => v),
        replacementIsJSON := a.typ = "replace_json" }
      mapSet (mapDel (mapSet funcs k f') v) (toLowerS f'.Name) f'
  else if a.typ = "handle" then
    let exc := toUpperS a.name
    List.map (fun p =>
      if toLowerS p.2.Package = toLowerS a.Package then
        (p.1, { p.2 with handle := p.2.handle ++ [exc] })
      else p) funcs
  else if a.typ = "max-table-size" then
    match mapGet funcs (toLowerS a.FullName) with
    | none => funcs
    | some f =>
      if a.size ≥ f.maxTableSize then
        mapSet funcs (toLowerS a.FullName) { f with maxTableSize := a.size }
      else funcs
  else funcs

/-- `ApplyAnnotations`: short-circuit on an empty annotation list, build
the lower-case keyed map, fold the annotations over it in order, and
collect the surviving values (map iteration order is unspecified in the
source; the association list's order stands in for it). -/
def ApplyAnnotations (fs : List Function) (anns : List Annot) : List Function :=
  if anns.isEmpty then fs
  else
    let funcs := fs.foldl (fun m f => mapSet m (toLowerS f.RealName) f) ([] : FMap)
    let funcs := anns.foldl applyAnnot funcs
    funcs.map (·.2)

/-! ## Numeric field parsing (`mustBeUint`, `mustBeUint8`) -/

/-- Boundary model of `strconv.Atoi` (Go standard library) on a 64-bit
platform: optional sign, decimal digits, error on empty/garbage input
and on values outside the `int64` range. -/
def atoi (s : String) : Except String Int :=
  let (sign, ds) : Int × List Char :=
    match s.data with
    | '+' :: r => (1, r)
    | '-' :: r => (-1, r)
    | r => (1, r)
  if ds.isEmpty then Except.error "invalid syntax"
  else if ¬ ds.all Char.isDigit then Except.error "invalid syntax"
  else
    let v : Int := sign * (ds.foldl (fun acc c => acc * 10 + (c.toNat - 48)) 0 : Nat)
    if v < -(2 ^ 63) ∨ 2 ^ 63 - 1 < v then Except.error "value out of range"
    else Except.ok v

/-- `mustBeUint` (lines 353-365 of the source): blank is zero, a parse
failure or a value with `u < 0 || u > 1<<32` panics (embedded as an
error), anything else is returned as an unsigned count. -/
def mustBeUint (text : String) : Except String Nat :=
  if text = "" then Except.ok 0
  else
    match atoi text with
    | Except.error e => Except.error e
    | Except.ok u =>
      if u < 0 ∨ u > 2 ^ 32 then Except.error (toString u ++ " out of range (not uint8)")
      else Except.ok u.toNat

/-- `mustBeUint8` (lines 367-379 of the source): blank is zero, a parse
failure or a value with `u < 0 || u > 255` panics (embedded as an
error). -/
def mustBeUint8 (text : String) : Except String Nat :=
  if text = "" then Except.ok 0
  else
    match atoi text with
    | Except.error e => Except.error e
    | Except.ok u =>
      if u < 0 ∨ u > 255 then Except.error (toString u ++ " out of range (not uint8)")
      else Except.ok u.toNat

/-! ## Row reader (`ReadCsv`) -/

/-- The required column set initialised to the `-1` sentinel. -/
def csvHeaderCols : List String :=
  ["OBJECT_ID", "SUBPROGRAM_ID", "PACKAGE_NAME", "OBJECT_NAME", "DATA_LEVEL",
   "SEQUENCE", "ARGUMENT_NAME", "IN_OUT", "DATA_TYPE", "DATA_PRECISION",
   "DATA_SCALE", "CHARACTER_SET_NAME", "PLS_TYPE", "CHAR_LENGTH",
   "TYPE_LINK", "TYPE_OWNER", "TYPE_NAME", "TYPE_SUBNAME"]

/-- Header resolution: upper-case each header cell and fill a required
column's index the first time it appears (`ok && j < 0` in the source). -/
def csvFieldsOf (head : List String) : List (String × Int) :=
  (head.enum).foldl
    (fun m p =>
      m.map (fun q => if q.1 = toUpperS p.2 ∧ q.2 < 0 then (q.1, (p.1 : Int)) else q))
    (csvHeaderCols.map (fun h => (h, (-1 : Int))))

/-- Column lookup in the resolved header map. -/
def colIdx (m : List (String × Int)) (name : String) : Int :=
  ((List.find? (fun q => q.1 = name) m).map (·.2)).getD (-1)

/-- Field access `rec[i]`: a `-1` sentinel or short record indexes out
of range in the source (a panic), embedded as an error. -/
def getField (rec : List String) (i : Int) : Except String String :=
  if h : 0 ≤ i ∧ i.toNat < rec.length then Except.ok (rec.get ⟨i.toNat, h.2⟩)
  else Except.error "index out of range"

/-- Leading-whitespace trim of a field (`TrimLeadingSpace`). -/
def trimLeadingSpaces (s : String) : String :=
  String.mk (s.data.dropWhile Char.isWhitespace)

/-- Boundary model of `encoding/csv` record splitting (Go standard
library): records at newlines (CR-LF tolerated, blank lines skipped),
fields at the configured comma; quoting is not exercised here. -/
def csvRecords (comma : Char) (input : String) : List (List String) :=
  (((input.splitOn "\n").map (fun l => if endsWithS l "\r" then l.dropRight 1 else l)).filter
      (fun l => l ≠ "")).map
    (fun l => (l.splitOn (String.singleton comma)).map trimLeadingSpaces)

/-- One row to a `UserArgument`, fields resolved by name exactly as the
source's struct literal does (lines 241-265). -/
def rowToUA (m : List (String × Int)) (rec : List String) : Except String UserArgument := do
  let objectID ← mustBeUint (← getField rec (colIdx m "OBJECT_ID"))
  let subprogramID ← mustBeUint (← getField rec (colIdx m "SUBPROGRAM_ID"))
  let packageName ← getField rec (colIdx m "PACKAGE_NAME")
  let objectName ← getField rec (colIdx m "OBJECT_NAME")
  let dataLevel ← mustBeUint8 (← getField rec (colIdx m "DATA_LEVEL"))
  let position ← mustBeUint (← getField rec (colIdx m "SEQUENCE"))
  let argumentName ← getField rec (colIdx m "ARGUMENT_NAME")
  let inOut ← getField rec (colIdx m "IN_OUT")
  let dataType ← getField rec (colIdx m "DATA_TYPE")
  let dataPrecision ← mustBeUint8 (← getField rec (colIdx m "DATA_PRECISION"))
  let dataScale ← mustBeUint8 (← getField rec (colIdx m "DATA_SCALE"))
  let characterSetName ← getField rec (colIdx m "CHARACTER_SET_NAME")
  let charLength ← mustBeUint (← getField rec (colIdx m "CHAR_LENGTH"))
  let plsType ← getField rec (colIdx m "PLS_TYPE")
  let typeLink ← getField rec (colIdx m "TYPE_LINK")
  let typeOwner ← getField rec (colIdx m "TYPE_OWNER")
  let typeName ← getField rec (colIdx m "TYPE_NAME")
  let typeSubname ← getField rec (colIdx m "TYPE_SUBNAME")
  pure { objectID := objectID, subprogramID := subprogramID,
         packageName := packageName, objectName := objectName,
         dataLevel := dataLevel, position := position,
         argumentName := argumentName, inOut := inOut, dataType := dataType,
         dataPrecision := dataPrecision, dataScale := dataScale,
         characterSetName := characterSetName, charLength := charLength,
         plsType := plsType, typeLink := typeLink, typeOwner := typeOwner,
         typeName := typeName, typeSubname := typeSubname }

/-- `ReadCsv` (lines 192-270 of the source): peek at a 100-byte prefix
(a shorter stream is a fatal peeking error), auto-detect the semicolon
delimiter in that prefix, read the header, resolve columns, then parse
every record (enforcing the header's field count, as
`csvr.FieldsPerRecord` does) into `UserArgument`s.  The channel is
embedded as the returned list. -/
def ReadCsv (input : String) : Except String (List UserArgument) :=
  if input.length < 100 then Except.error "error peeking into file: EOF"
  else
    let comma := if (input.take 100).data.contains ';' then ';' else ','
    match csvRecords comma input with
    | [] => Except.error "cannot read head: EOF"
    | head :: rows =>
      let m := csvFieldsOf head
      rows.foldl
        (fun acc rec => do
          let uas ← acc
          if rec.length ≠ head.length then Except.error "wrong number of fields"
          else do
            let ua ← rowToUA m rec
            pure (uas ++ [ua]))
        (Except.ok [])

/-! ## Schema emitter (`SaveProtobuf`, `protoWriteMessageTyp`) -/

/-- An argument node of the `structs` package as the emitter reads it:
a plain recursive value (`NamedArgument`s embed their `Argument`, so
`RecordOf` is a list of child nodes carrying their own names). -/
inductive PArg where
  | mk (name : String) (direction : Nat) (typ : String) (flavor : Flavor)
      (tableOf : Option PArg) (recordOf : List PArg)
deriving Repr

/-- Field accessor. -/
def PArg.name : PArg → String
  | .mk n _ _ _ _ _ => n

/-- Field accessor. -/
def PArg.direction : PArg → Nat
  | .mk _ d _ _ _ _ => d

/-- Field accessor. -/
def PArg.typ : PArg → String
  | .mk _ _ t _ _ _ => t

/-- Field accessor. -/
def PArg.flavor : PArg → Flavor
  | .mk _ _ _ f _ _ => f

/-- Field accessor. -/
def PArg.tableOf : PArg → Option PArg
  | .mk _ _ _ _ t _ => t

/-- Field accessor. -/
def PArg.recordOf : PArg → List PArg
  | .mk _ _ _ _ _ r => r

/-- In-place rename of the loop's local copy (`arg.Name = replHidden(...)`). -/
def PArg.setName (a : PArg) (n : String) : PArg :=
  match a with
  | .mk _ d t f tb r => .mk n d t f tb r

/-- Direction bit for input arguments.
Modelled from the spec: the constant declarations are not among the
analysed sources; the spec specifies a direction bitmask. -/
def DIR_IN : Nat := 1

/-- Direction bit for output arguments (see `DIR_IN`). -/
def DIR_OUT : Nat := 2

/-- Emitter errors: `ErrMissingTableOf` with the offending message and
argument name (`errors.Wrapf` context strings preserve the cause, which
is all the callers inspect, so wrapping is embedded as identity), plus
the artificial fuel bound of the embedding. -/
inductive PErr where
  | missingTableOf (msgName argName : String)
  | outOfFuel
deriving DecidableEq, Repr

/-- `errors.Cause(err) == ErrMissingTableOf`. -/
def isMissingTableOf : PErr → Bool
  | .missingTableOf _ _ => true
  | _ => false

/-- One unit of emitted schema text: a `message <name> {` header or a
plain text chunk.  Keeping headers structured lets the deduplication
property talk about which declarations a run emits. -/
inductive Ev where
  | head (name : String)
  | line (s : String)
deriving DecidableEq, Repr

/-- Text of one event (`head n` is the `fmt.Fprintf(w, "\nmessage %s {\n", n)` write). -/
def renderEv : Ev → String
  | .head n => "\nmessage " ++ n ++ " \x7b\n"
  | .line s => s

/-- Rendered text of an event sequence — the bytes the source writes. -/
def render (evs : List Ev) : String :=
  String.join (evs.map renderEv)

/-- A protobuf option value (`protoOptions` map entry). -/
inductive POptV where
  | b (v : Bool)
  | s (v : String)
deriving DecidableEq, Repr

/-- `protoOptions.String` (the source iterates a two-entry Go map whose
order is unspecified; the literal's insertion order is used here). -/
def optsString (opts : List (String × POptV)) : String :=
  if opts.isEmpty then ""
  else
    "[" ++
      String.intercalate ", "
        (opts.map (fun p =>
          "(" ++ p.1 ++ ")=" ++
            (match p.2 with
             | POptV.b v => if v then "true" else "false"
             | POptV.s v => "\"" ++ v ++ "\""))) ++ "]"

/-- `strings.TrimPrefix`. -/
def trimPfxS (s p : String) : String :=
  if startsWithS s p then s.drop p.length else s

/-- `protoType` (lines 195-228 of the source): scalar-type mapping on
the lower-cased name after stripping `[]` and `*` prefixes. -/
def protoType (got : String) : String × List (String × POptV) :=
  let trimmed := toLowerS (trimPfxS (trimPfxS got "[]") "*")
  if trimmed = "ora.time" ∨ trimmed = "time.time" then ("string", [])
  else if trimmed = "ora.string" then ("string", [])
  else if trimmed = "int32" then ("sint32", [])
  else if trimmed = "ora.int32" then ("sint32", [])
  else if trimmed = "float64" then ("double", [])
  else if trimmed = "ora.float64" then ("double", [])
  else if trimmed = "ora.date" ∨ trimmed = "custom.date" then
    ("string", [("gogoproto.nullable", POptV.b false),
                ("gogoproto.customtype", POptV.s "github.com/tgulacsi/oracall/custom.Date")])
  else if trimmed = "n" ∨ trimmed = "ora.n" then
    ("string", [("gogoproto.nullable", POptV.b false),
                ("gogoproto.customtype", POptV.s "github.com/tgulacsi/oracall/custom.Number")])
  else if trimmed = "ora.lob" then
    ("bytes", [("gogoproto.nullable", POptV.b false),
               ("gogoproto.customtype", POptV.s "github.com/tgulacsi/oracall/custom.Lob")])
  else (trimmed, [])

section ProtoEmitter

variable (gt : PArg → String) (rh : String → String)

/-- The `(rule, typ, options)` computation for one field of the loop
body: the `repeated` qualifier, pointer/slice stripping of the Go type,
and the `protoType` mapping. -/
def fieldInfo (gt : PArg → String) (arg : PArg) : String × String × List (String × POptV) :=
  let rule0 := if arg.flavor == Flavor.table then "repeated " else ""
  let got0 := gt arg
  let got1 := if startsWithS got0 "*" then got0.drop 1 else got0
  let rg := if startsWithS got1 "[]" then ("repeated ", got1.drop 2) else (rule0, got1)
  let got3 := if startsWithS rg.2 "*" then rg.2.drop 1 else rg.2
  let tp := protoType got3
  (rg.1, tp.1, tp.2)

/-- The field line written for argument `arg` at position `i`
(`fmt.Fprintf(w, "\t%s%s %s = %d%s;\n", ...)`). -/
def fieldLineOf (gt : PArg → String) (arg : PArg) (i : Nat) : Ev :=
  let fi := fieldInfo gt arg
  let optS := if optsString fi.2.2 = "" then "" else " " ++ optsString fi.2.2
  Ev.line ("\t" ++ fi.1 ++ fi.2.1 ++ " " ++ arg.name ++ " = " ++ toString (i + 1) ++ optS ++ ";\n")

/-- The nested argument set of a composite field (lines 166-180 of the
source; an empty `RecordOf` stands for the source's nil slice). -/
def subArgsOf (arg : PArg) : List PArg :=
  match arg.tableOf with
  | some t => match t.recordOf with | [] => [t] | rs => rs
  | none => arg.recordOf

/-- The hidden-name rename at the top of each loop iteration
(`if strings.HasSuffix(arg.Name, "#") { arg.Name = replHidden(arg.Name) }`). -/
def renArg (rh : String → String) (arg0 : PArg) : PArg :=
  if endsWithS arg0.name "#" then arg0.setName (rh arg0.name) else arg0

/-- Prepend this iteration's field line to the rest of the loop's output. -/
def consField (fieldLine : Ev) (r : List String × Except PErr (List Ev × List Ev)) :
    List String × Except PErr (List Ev × List Ev) :=
  match r with
  | (s, Except.error e) => (s, Except.error e)
  | (s, Except.ok (fs, buf)) => (s, Except.ok (fieldLine :: fs, buf))

/-- Prepend this iteration's field line and nested declarations. -/
def consFieldBuf (fieldLine : Ev) (subEv : List Ev)
    (r : List String × Except PErr (List Ev × List Ev)) :
    List String × Except PErr (List Ev × List Ev) :=
  match r with
  | (s, Except.error e) => (s, Except.error e)
  | (s, Except.ok (fs, buf)) => (s, Except.ok (fieldLine :: fs, subEv ++ buf))

/-- The `for i, arg := range args` loop of `protoWriteMessageTyp`,
with the recursive nested-message emission abstracted as `recur` (tied
to `pwmt` at the next lower fuel): returns the field lines written to
`dst` and the nested declarations accumulated in `buf`, threading
`seen` (which survives an error return, as the in-place map does). -/
def pwmtLoop (recur : String → List String → List PArg → List String × Except PErr (List Ev))
    (msgName : String) (seen : List String) (args : List PArg) (i : Nat) :
    List String × Except PErr (List Ev × List Ev) :=
  match args with
  | [] => (seen, Except.ok ([], []))
  | arg0 :: rest =>
    let arg := renArg rh arg0
    if arg.flavor == Flavor.table && arg.tableOf.isNone then
      (seen, Except.error (PErr.missingTableOf msgName arg.name))
    else
      let typ := (fieldInfo gt arg).2.1
      let fieldLine := fieldLineOf gt arg i
      if arg.flavor == Flavor.simple ||
          (arg.flavor == Flavor.table &&
            ((arg.tableOf.map PArg.flavor).getD Flavor.record == Flavor.simple)) then
        consField fieldLine (pwmtLoop recur msgName seen rest (i + 1))
      else if seen.contains typ then
        consField fieldLine (pwmtLoop recur msgName seen rest (i + 1))
      else
        match recur typ seen (subArgsOf arg) with
        | (s1, Except.error e) => (s1, Except.error e)
        | (s1, Except.ok subEv) =>
          consFieldBuf fieldLine subEv (pwmtLoop recur msgName (s1 ++ [typ]) rest (i + 1))

/-- `protoWriteMessageTyp` (lines 117-193 of the source), parametrised
by `goType` (`gt`) and `replHidden` (`rh`), which are not among the
analysed sources: the up-front nil-`TableOf` check over all args, then
the field loop; the emitted events are the header, the field lines, the
closing brace, then the auxiliary buffer holding nested declarations.
`fuel` bounds the nesting depth only and is an embedding artifact;
every claim is stated so that exhaustion never matters. -/
def pwmt : Nat → String → List String → List PArg → List String × Except PErr (List Ev)
  | fuel, msgName, seen, args =>
    match List.find? (fun a => a.flavor == Flavor.table && a.tableOf.isNone) args with
    | some a => (seen, Except.error (PErr.missingTableOf msgName a.name))
    | none =>
      match fuel with
      | 0 => (seen, Except.error PErr.outOfFuel)
      | fuel + 1 =>
        match pwmtLoop gt rh (pwmt fuel) msgName seen args 0 with
        | (seen1, Except.error e) => (seen1, Except.error e)
        | (seen1, Except.ok (fields, buf)) =>
          (seen1, Except.ok (Ev.head msgName :: fields ++ [Ev.line "\x7d\n"] ++ buf))
termination_by structural fuel => fuel

end ProtoEmitter

mutual

/-- Size measure of a `PArg` tree, used as the emitter's fuel bound. -/
def pargSize : PArg → Nat
  | PArg.mk _ _ _ _ none rs => 1 + pargsSize rs
  | PArg.mk _ _ _ _ (some t) rs => 1 + pargSize t + pargsSize rs

/-- Size measure of a `PArg` list. -/
def pargsSize : List PArg → Nat
  | [] => 0
  | a :: rest => pargSize a + pargsSize rest

end

/-- A `structs.Function` as the emitter reads it (`Name()` is not among
the analysed sources and is carried as a field). -/
structure PFunction where
  name : String := ""
  args : List PArg := []
  returns : Option PArg := none
deriving Repr

/-- `Function.ReturnsCursor` (lines 74-81 of the source). -/
def PFunction.ReturnsCursor (f : PFunction) : Bool :=
  f.args.any (fun a => a.direction &&& DIR_OUT != 0 && a.typ == "REF CURSOR")

/-- `dot2D.Replace`: every `.` becomes `__`. -/
def dot2D (s : String) : String :=
  String.mk (s.data.flatMap (fun c => if c = '.' then ['_', '_'] else [c]))

section ProtoEmitter2

variable (gt : PArg → String) (rh : String → String) (gsn : Bool → PFunction → String)

/-- `Function.saveProtobufDir` (lines 94-113 of the source): filter the
args by direction bit, append `Returns` for the output direction, and
emit the `<name>__input`/`__output` message. -/
def saveProtobufDir (fuel : Nat) (f : PFunction) (seen : List String) (out : Bool) :
    List String × Except PErr (List Ev) :=
  let dirmap := if out then DIR_OUT else DIR_IN
  let dirname := if out then "output" else "input"
  let args0 := f.args.filter (fun a => a.direction &&& dirmap > 0)
  let args :=
    if out then (match f.returns with | some r => args0 ++ [r] | none => args0)
    else args0
  pwmt gt rh fuel (dot2D (toLowerS f.name) ++ "__" ++ dirname) seen args

/-- `Function.SaveProtobuf` (lines 83-93 of the source): both directions
into a local buffer; on any error nothing reaches `dst` (though `seen`
keeps its mutations). -/
def funSaveProtobuf (fuel : Nat) (f : PFunction) (seen : List String) :
    List String × Except PErr (List Ev) :=
  match saveProtobufDir gt rh fuel f seen false with
  | (s1, Except.error e) => (s1, Except.error e)
  | (s1, Except.ok evIn) =>
    match saveProtobufDir gt rh fuel f s1 true with
    | (s2, Except.error e) => (s2, Except.error e)
    | (s2, Except.ok evOut) => (s2, Except.ok (evIn ++ evOut))

/-- The `service` block written after a function emits successfully. -/
def serviceEv (f : PFunction) : List Ev :=
  let nm := toLowerS (dot2D f.name)
  let streamQual := if f.ReturnsCursor then "stream " else ""
  [Ev.line ("\nservice " ++ nm ++ " \x7b\n\trpc " ++ nm ++ " (" ++
    toLowerS (gsn false f) ++ ") returns (" ++ streamQual ++ toLowerS (gsn true f) ++
    ") \x7b\x7d\n\x7d\n")]

/-- The `FunLoop` of `SaveProtobuf` (lines 49-69 of the source): a
function failing with cause `ErrMissingTableOf` is skipped (its `seen`
mutations persist); any other error aborts, keeping the output written
so far. -/
def saveProtobufLoop (fuel : Nat) (fs : List PFunction) (seen : List String) :
    List Ev × List String × Option PErr :=
  match fs with
  | [] => ([], seen, none)
  | f :: rest =>
    match funSaveProtobuf gt rh fuel f seen with
    | (s1, Except.error e) =>
      if isMissingTableOf e then saveProtobufLoop fuel rest s1
      else ([], s1, some e)
    | (s1, Except.ok ev) =>
      let r := saveProtobufLoop fuel rest s1
      (ev ++ serviceEv gsn f ++ r.1, r.2.1, r.2.2)

/-- `SaveProtobuf` (lines 35-72 of the source): the fixed header, then
the function loop.  The fuel is any bound large enough for the argument
trees; the total node count dominates their depth. -/
def SaveProtobuf (fs : List PFunction) (pkg : String) : List Ev × List String × Option PErr :=
  let header :=
    [Ev.line "syntax = \"proto3\";\n\n"] ++
      (if pkg ≠ "" then [Ev.line ("package " ++ pkg ++ ";\n")] else []) ++
      [Ev.line "\n\timport \"github.com/gogo/protobuf/gogoproto/gogo.proto\";\n"]
  let fuel := fs.foldl
    (fun n f =>
      n + 2 * pargsSize f.args + 2 * (match f.returns with | some r => pargSize r | none => 0))
    1
  let r := saveProtobufLoop gt rh gsn fuel fs []
  (header ++ r.1, r.2.1, r.2.2)

end ProtoEmitter2

/-- Names of the message declarations in an event sequence. -/
def heads (evs : List Ev) : List String :=
  evs.filterMap (fun e => match e with | Ev.head n => some n | Ev.line _ => none)

/-! ## Well-formed pre-order batches and re-flattening (for the
round-trip property) -/

mutual

/-- A source-side argument tree: the shape a well-formed pre-order
batch describes.  Leaves carry their scalar `DATA_TYPE`. -/
inductive ATree where
  | simpleA (name dt : String)
  | recordA (name : String) (fields : AForest)
  | tableA (name : String) (elem : ATree)

/-- A forest of sibling argument trees. -/
inductive AForest where
  | nilF
  | consF (head : ATree) (tail : AForest)

end

/-- Root name of a tree. -/
def nameT : ATree → String
  | ATree.simpleA n _ => n
  | ATree.recordA n _ => n
  | ATree.tableA n _ => n

mutual

/-- Number of rows a tree flattens to. -/
def sizeT : ATree → Nat
  | ATree.simpleA _ _ => 1
  | ATree.recordA _ fs => 1 + sizeF fs
  | ATree.tableA _ e => 1 + sizeT e

/-- Number of rows a forest flattens to. -/
def sizeF : AForest → Nat
  | AForest.nilF => 0
  | AForest.consF t ts => sizeT t + sizeF ts

end

mutual

/-- The pre-order row flattening of a tree at nesting level `lvl`:
exactly the batch rows the catalog export produces for it. -/
def rowsT (pkg obj : String) : ATree → Nat → List UserArgument
  | ATree.simpleA n dt, lvl =>
    [{ packageName := pkg, objectName := obj, argumentName := n, dataType := dt,
       dataLevel := lvl }]
  | ATree.recordA n fs, lvl =>
    { packageName := pkg, objectName := obj, argumentName := n,
      dataType := "PL/SQL RECORD", dataLevel := lvl } :: rowsF pkg obj fs (lvl + 1)
  | ATree.tableA n e, lvl =>
    { packageName := pkg, objectName := obj, argumentName := n,
      dataType := "PL/SQL TABLE", dataLevel := lvl } :: rowsT pkg obj e (lvl + 1)

/-- The pre-order row flattening of a forest of siblings. -/
def rowsF (pkg obj : String) : AForest → Nat → List UserArgument
  | AForest.nilF, _ => []
  | AForest.consF t ts, lvl => rowsT pkg obj t lvl ++ rowsF pkg obj ts lvl

end

mutual

/-- The `(level, argument name)` trace of a tree, in pre-order. -/
def flattenA : ATree → Nat → List (Nat × String)
  | ATree.simpleA n _, lvl => [(lvl, n)]
  | ATree.recordA n fs, lvl => (lvl, n) :: flattenAF fs (lvl + 1)
  | ATree.tableA n e, lvl => (lvl, n) :: flattenA e (lvl + 1)

/-- The `(level, argument name)` trace of a forest, in pre-order. -/
def flattenAF : AForest → Nat → List (Nat × String)
  | AForest.nilF, _ => []
  | AForest.consF t ts, lvl => flattenA t lvl ++ flattenAF ts lvl

end

mutual

/-- Well-formedness of a tree placed at level `lvl`: levels stay within
`int8` range (the source converts `DATA_LEVEL` through `int8`), leaves
carry a scalar type tag, and a level-0 node is named (an unnamed level-0
row is a return value, not part of the argument tree). -/
def wfT : ATree → Nat → Prop
  | ATree.simpleA n dt, lvl =>
    lvl ≤ 127 ∧ flavorOfDataType dt = Flavor.simple ∧ (lvl = 0 → n ≠ "")
  | ATree.recordA n fs, lvl => lvl ≤ 127 ∧ (lvl = 0 → n ≠ "") ∧ wfF fs (lvl + 1)
  | ATree.tableA n e, lvl => lvl ≤ 127 ∧ (lvl = 0 → n ≠ "") ∧ wfT e (lvl + 1)

/-- Well-formedness of a sibling forest at level `lvl`. -/
def wfF : AForest → Nat → Prop
  | AForest.nilF, _ => True
  | AForest.consF t ts, lvl => wfT t lvl ∧ wfF ts lvl

end

/-- Child heap indices of a node (record fields, then the table
element). -/
def childIdxs (a : Argument) : List Nat :=
  a.recordOf.map Prod.snd ++ (match a.tableOf with | some i => [i] | none => [])

/-- Pre-order emission of one `Argument` value at level `lvl`: its own
`(level, name)` pair, then its children via the `recur` callback
(record fields, or the table element). -/
def flatNode (recur : List Nat → Nat → List (Nat × String)) (a : Argument) (lvl : Nat) :
    List (Nat × String) :=
  (lvl, a.name) ::
    (match a.flavor with
     | Flavor.simple => []
     | Flavor.record => recur (a.recordOf.map Prod.snd) (lvl + 1)
     | Flavor.table =>
       match a.tableOf with
       | none => []
       | some e => recur [e] (lvl + 1))

/-- Re-flatten the nodes at the given heap indices, in order, calling
`recur` for the children one level down. -/
def flattenLoop (heap : List Argument) (recur : List Nat → Nat → List (Nat × String)) :
    List Nat → Nat → List (Nat × String)
  | [], _ => []
  | i :: rest, lvl =>
    (match heap.get? i with
     | none => []
     | some a => flatNode recur a lvl) ++ flattenLoop heap recur rest lvl

/-- Re-flatten heap-resident nodes in pre-order, emitting `(level, name)`
pairs; `fuel` bounds the depth. -/
def flattenL (heap : List Argument) : Nat → List Nat → Nat → List (Nat × String)
  | 0, _, _ => []
  | fuel + 1, is, lvl => flattenLoop heap (flattenL heap fuel) is lvl
termination_by structural fuel => fuel

/-- Re-flatten a `Function`'s argument values (the dereferenced
top-level `Args`). -/
def flattenArgs (heap : List Argument) (fuel : Nat) : List Argument → Nat → List (Nat × String)
  | [], _ => []
  | a :: rest, lvl => flatNode (flattenL heap fuel) a lvl ++ flattenArgs heap fuel rest lvl

/-- Attachment of a list of labelled children to a parent, in order. -/
def attachList (parent : Argument) : List (String × Nat) → Argument
  | [] => parent
  | (nm, idx) :: rest => attachList (attachTo parent nm idx) rest

/-- The `(root name, root heap index)` labels of a forest's trees when
the first tree's root is allocated at `base` and each subtree occupies
the `sizeT` slots after its root. -/
def labelsF : AForest → Nat → List (String × Nat)
  | AForest.nilF, _ => []
  | AForest.consF t ts, base => (nameT t, base) :: labelsF ts (base + sizeT t)

/-- The `Argument` value the builder allocates for a catalog row carrying
name `nm` and data type `dt` (all other columns empty). -/
def rowArg (nm dt : String) : Argument :=
  { name := nm, flavor := flavorOfDataType dt, typ := dt, absType := "..@" }

/-! ## Supporting lemmas and the claim theorems -/

lemma mapGet_append (m1 m2 : FMap) (k : String) :
    mapGet (m1 ++ m2) k = ((mapGet m1 k).orElse (fun _ => mapGet m2 k)) := by
  induction m1 with
  | nil => simp [mapGet]
  | cons a m ih =>
    by_cases ha : a.1 = k <;> simp [mapGet, ha, ih]

lemma mapGet_none_of_not_has (m : FMap) (k : String) (h : mapHas m k = false) :
    mapGet m k = none := by
  induction m with
  | nil => rfl
  | cons a m ih =>
    by_cases ha : a.1 = k
    · simp [mapHas, ha] at h
    · simp only [mapHas, ha, if_false] at h
      simp [mapGet, ha, ih h]

lemma mapGet_map_upd_self (m : FMap) (k : String) (v : Function) (h : mapHas m k = true) :
    mapGet (List.map (fun p => if p.1 = k then (k, v) else p) m) k = some v := by
  induction m with
  | nil => simp [mapHas] at h
  | cons a m ih =>
    by_cases ha : a.1 = k
    · simp [mapGet, ha]
    · simp only [mapHas, ha, if_false] at h
      simp [mapGet, ha, ih h]

lemma mapGet_map_upd_ne (m : FMap) (k k' : String) (v : Function) (h : k' ≠ k) :
    mapGet (List.map (fun p => if p.1 = k then (k, v) else p) m) k' = mapGet m k' := by
  induction m with
  | nil => rfl
  | cons a m ih =>
    by_cases ha : a.1 = k
    · have h1 : a.1 ≠ k' := by rw [ha]; exact Ne.symm h
      have h2 : k ≠ k' := Ne.symm h
      simp [mapGet, ha, h1, h2, ih]
    · by_cases ha' : a.1 = k'
      · simp [mapGet, ha, ha', h, ih]
      · simp [mapGet, ha, ha', ih]

lemma mapGet_set_self (m : FMap) (k : String) (v : Function) :
    mapGet (mapSet m k v) k = some v := by
  unfold mapSet
  by_cases h : mapHas m k
  · simp [h, mapGet_map_upd_self m k v h]
  · simp only [Bool.not_eq_true] at h
    simp [h, mapGet_append, mapGet_none_of_not_has m k h, mapGet]

lemma mapGet_set_ne (m : FMap) (k k' : String) (v : Function) (h : k' ≠ k) :
    mapGet (mapSet m k v) k' = mapGet m k' := by
  unfold mapSet
  by_cases hs : mapHas m k
  · simp [hs, mapGet_map_upd_ne m k k' v h]
  · simp only [Bool.not_eq_true] at hs
    have h2 : mapGet [(k, v)] k' = none := by
      have : k ≠ k' := Ne.symm h
      simp [mapGet, this]
    simp [hs, mapGet_append, h2]

lemma mapGet_del_self (m : FMap) (k : String) :
    mapGet (mapDel m k) k = none := by
  induction m with
  | nil => rfl
  | cons a m ih =>
    by_cases ha : a.1 = k <;> simp [mapDel, mapGet, ha, ih]

lemma mapGet_del_ne (m : FMap) (k k' : String) (h : k' ≠ k) :
    mapGet (mapDel m k) k' = mapGet m k' := by
  induction m with
  | nil => rfl
  | cons a m ih =>
    have hkk : k ≠ k' := Ne.symm h
    by_cases ha : a.1 = k <;> by_cases ha' : a.1 = k' <;>
      simp [mapDel, mapGet, ha, ha', hkk, h, ih]




lemma applyAnnot_mts_single (m : FMap) (f0 : Function) (pkg nm : String) (s : Int)
    (hnm : nm ≠ "") (hs : 0 < s)
    (hget : mapGet m (toLowerS (if pkg = "" ∨ nm = "" then nm else pkg ++ "." ++ nm)) = some f0)
    (hcur : f0.maxTableSize ≤ s) :
    applyAnnot m { Package := pkg, typ := "max-table-size", name := nm, size := s } =
      mapSet m (toLowerS (if pkg = "" ∨ nm = "" then nm else pkg ++ "." ++ nm))
        { f0 with maxTableSize := s } := by
  unfold applyAnnot
  have hg1 : ¬((({ Package := pkg, typ := "max-table-size", name := nm, size := s } : Annot)).name = "" ∨
      (({ Package := pkg, typ := "max-table-size", name := nm, size := s } : Annot)).typ = "") := by
    simp [hnm]
  rw [if_neg hg1]
  have hg2 : ¬((({ Package := pkg, typ := "max-table-size", name := nm, size := s } : Annot)).other = "" ∧
      ¬((({ Package := pkg, typ := "max-table-size", name := nm, size := s } : Annot)).typ = "private" ∨
        (({ Package := pkg, typ := "max-table-size", name := nm, size := s } : Annot)).typ = "handle" ∨
        (({ Package := pkg, typ := "max-table-size", name := nm, size := s } : Annot)).typ = "max-table-size")) := by
    simp
  rw [if_neg hg2]
  have e0 : ¬((({ Package := pkg, typ := "max-table-size", name := nm, size := s } : Annot)).size ≤ 0 ∧
      (({ Package := pkg, typ := "max-table-size", name := nm, size := s } : Annot)).typ = "max-table-size") := by
    simp only [not_and]
    intro hc
    exact absurd hc (by simpa using hs)
  rw [if_neg e0]
  have e1 : ¬((({ Package := pkg, typ := "max-table-size", name := nm, size := s } : Annot)).typ = "private") := by simp
  have e2 : ¬((({ Package := pkg, typ := "max-table-size", name := nm, size := s } : Annot)).typ = "rename") := by simp
  have e3 : ¬((({ Package := pkg, typ := "max-table-size", name := nm, size := s } : Annot)).typ = "replace" ∨
      (({ Package := pkg, typ := "max-table-size", name := nm, size := s } : Annot)).typ = "replace_json") := by simp
  have e4 : ¬((({ Package := pkg, typ := "max-table-size", name := nm, size := s } : Annot)).typ = "handle") := by simp
  rw [if_neg e1, if_neg e2, if_neg e3, if_neg e4, if_pos rfl]
  have hfn : (({ Package := pkg, typ := "max-table-size", name := nm, size := s } : Annot)).FullName =
      (if pkg = "" ∨ nm = "" then nm else pkg ++ "." ++ nm) := by
    simp [Annot.FullName]
  rw [hfn, hget]
  simp only [ge_iff_le, hcur, if_true]

lemma applyAnnot_mts_single_noop (m : FMap) (f0 : Function) (pkg nm : String) (s : Int)
    (hnm : nm ≠ "") (hs : 0 < s)
    (hget : mapGet m (toLowerS (if pkg = "" ∨ nm = "" then nm else pkg ++ "." ++ nm)) = some f0)
    (hcur : ¬(f0.maxTableSize ≤ s)) :
    applyAnnot m { Package := pkg, typ := "max-table-size", name := nm, size := s } = m := by
  unfold applyAnnot
  have hg1 : ¬((({ Package := pkg, typ := "max-table-size", name := nm, size := s } : Annot)).name = "" ∨
      (({ Package := pkg, typ := "max-table-size", name := nm, size := s } : Annot)).typ = "") := by
    simp [hnm]
  rw [if_neg hg1]
  have hg2 : ¬((({ Package := pkg, typ := "max-table-size", name := nm, size := s } : Annot)).other = "" ∧
      ¬((({ Package := pkg, typ := "max-table-size", name := nm, size := s } : Annot)).typ = "private" ∨
        (({ Package := pkg, typ := "max-table-size", name := nm, size := s } : Annot)).typ = "handle" ∨
        (({ Package := pkg, typ := "max-table-size", name := nm, size := s } : Annot)).typ = "max-table-size")) := by
    simp
  rw [if_neg hg2]
  have e0 : ¬((({ Package := pkg, typ := "max-table-size", name := nm, size := s } : Annot)).size ≤ 0 ∧
      (({ Package := pkg, typ := "max-table-size", name := nm, size := s } : Annot)).typ = "max-table-size") := by
    simp only [not_and]
    intro hc
    exact absurd hc (by simpa using hs)
  rw [if_neg e0]
  have e1 : ¬((({ Package := pkg, typ := "max-table-size", name := nm, size := s } : Annot)).typ = "private") := by simp
  have e2 : ¬((({ Package := pkg, typ := "max-table-size", name := nm, size := s } : Annot)).typ = "rename") := by simp
  have e3 : ¬((({ Package := pkg, typ := "max-table-size", name := nm, size := s } : Annot)).typ = "replace" ∨
      (({ Package := pkg, typ := "max-table-size", name := nm, size := s } : Annot)).typ = "replace_json") := by simp
  have e4 : ¬((({ Package := pkg, typ := "max-table-size", name := nm, size := s } : Annot)).typ = "handle") := by simp
  rw [if_neg e1, if_neg e2, if_neg e3, if_neg e4, if_pos rfl]
  have hfn : (({ Package := pkg, typ := "max-table-size", name := nm, size := s } : Annot)).FullName =
      (if pkg = "" ∨ nm = "" then nm else pkg ++ "." ++ nm) := by
    simp [Annot.FullName]
  rw [hfn, hget]
  simp only [ge_iff_le, hcur, if_false]

lemma applyAnnot_mts_get (funcs : FMap) (a : Annot) (k : String) (g g' : Function)
    (ht : a.typ = "max-table-size")
    (hg : mapGet funcs k = some g)
    (hg' : mapGet (applyAnnot funcs a) k = some g') :
    g.maxTableSize ≤ g'.maxTableSize := by
  unfold applyAnnot at hg'
  by_cases hn : a.name = ""
  · have hg1 : a.name = "" ∨ a.typ = "" := Or.inl hn
    rw [if_pos hg1] at hg'
    rw [hg] at hg'
    cases hg'
    exact le_refl _
  · have hg1 : ¬(a.name = "" ∨ a.typ = "") := by simp [hn, ht]
    have hg2 : ¬(a.other = "" ∧ ¬(a.typ = "private" ∨ a.typ = "handle" ∨ a.typ = "max-table-size")) := by
      simp [ht]
    rw [if_neg hg1, if_neg hg2] at hg'
    by_cases hsz : a.size ≤ 0
    · rw [if_pos ⟨hsz, ht⟩, hg] at hg'
      cases hg'
      exact le_refl _
    · have e0 : ¬(a.size ≤ 0 ∧ a.typ = "max-table-size") := by simp [hsz]
      have e1 : ¬(a.typ = "private") := by rw [ht]; decide
      have e2 : ¬(a.typ = "rename") := by rw [ht]; decide
      have e3 : ¬(a.typ = "replace" ∨ a.typ = "replace_json") := by rw [ht]; decide
      have e4 : ¬(a.typ = "handle") := by rw [ht]; decide
      rw [if_neg e0, if_neg e1, if_neg e2, if_neg e3, if_neg e4, if_pos ht] at hg'
      set nk := toLowerS a.FullName with hnk
      cases hf : mapGet funcs nk with
      | none =>
        rw [hf] at hg'
        simp only [] at hg'
        rw [hg] at hg'
        cases hg'
        exact le_refl _
      | some f =>
        rw [hf] at hg'
        simp only [] at hg'
        by_cases hge : a.size ≥ f.maxTableSize
        · rw [if_pos hge] at hg'
          by_cases hk : k = nk
          · subst hk
            rw [hf] at hg
            cases hg
            rw [mapGet_set_self] at hg'
            cases hg'
            simpa using hge
          · rw [mapGet_set_ne _ _ _ _ hk, hg] at hg'
            cases hg'
            exact le_refl _
        · rw [if_neg hge, hg] at hg'
          cases hg'
          exact le_refl _

/-- C6: `max-table-size` is monotone — two positive-size annotations in
either order leave the hint at the maximum of the sizes, and a single
`max-table-size` step never decreases any function's hint. -/
theorem C6_max_table_size_monotone :
    (∀ (f : Function) (s1 s2 : Int), f.name ≠ "" → f.maxTableSize = 0 → 0 < s1 → 0 < s2 →
      ApplyAnnotations [f]
        [{ Package := f.Package, typ := "max-table-size", name := f.name, size := s1 },
         { Package := f.Package, typ := "max-table-size", name := f.name, size := s2 }] =
        [{ f with maxTableSize := max s1 s2 }])
    ∧ (∀ (funcs : FMap) (a : Annot) (k : String) (g g' : Function), a.typ = "max-table-size" →
        mapGet funcs k = some g → mapGet (applyAnnot funcs a) k = some g' →
        g.maxTableSize ≤ g'.maxTableSize) := by
  constructor
  · intro f s1 s2 hnm hmts hs1 hs2
    have hkey : (if f.Package = "" ∨ f.name = "" then f.name else f.Package ++ "." ++ f.name) =
        f.RealName := by
      by_cases hq : f.Package = "" <;> simp [Function.RealName, hq, hnm]
    unfold ApplyAnnotations
    simp only [List.isEmpty, List.foldl]
    set key := toLowerS f.RealName with hk
    have hm0 : mapSet ([] : FMap) key f = [(key, f)] := by simp [mapSet, mapHas]
    rw [hm0]
    have hget1 : mapGet [(key, f)]
        (toLowerS (if f.Package = "" ∨ f.name = "" then f.name else f.Package ++ "." ++ f.name)) =
        some f := by
      rw [hkey]
      simp [mapGet]
    rw [applyAnnot_mts_single _ f f.Package f.name s1 hnm hs1 hget1 (by rw [hmts]; exact le_of_lt hs1)]
    have hm1 : mapSet [(key, f)]
        (toLowerS (if f.Package = "" ∨ f.name = "" then f.name else f.Package ++ "." ++ f.name))
        { f with maxTableSize := s1 } = [(key, { f with maxTableSize := s1 })] := by
      rw [hkey]
      simp [mapSet, mapHas]
    rw [hm1]
    by_cases hle : s1 ≤ s2
    · have hget2 : mapGet [(key, { f with maxTableSize := s1 })]
          (toLowerS (if f.Package = "" ∨ f.name = "" then f.name else f.Package ++ "." ++ f.name)) =
          some { f with maxTableSize := s1 } := by
        rw [hkey]
        simp [mapGet]
      rw [applyAnnot_mts_single _ { f with maxTableSize := s1 } f.Package f.name s2 hnm hs2 hget2
        (by simpa using hle)]
      have hm2 : mapSet [(key, { f with maxTableSize := s1 })]
          (toLowerS (if f.Package = "" ∨ f.name = "" then f.name else f.Package ++ "." ++ f.name))
          { f with maxTableSize := s2 } = [(key, { f with maxTableSize := s2 })] := by
        rw [hkey]
        simp [mapSet, mapHas]
      rw [hm2]
      rw [max_eq_right hle]
      rfl
    · have hget2 : mapGet [(key, { f with maxTableSize := s1 })]
          (toLowerS (if f.Package = "" ∨ f.name = "" then f.name else f.Package ++ "." ++ f.name)) =
          some { f with maxTableSize := s1 } := by
        rw [hkey]
        simp [mapGet]
      rw [applyAnnot_mts_single_noop _ { f with maxTableSize := s1 } f.Package f.name s2 hnm hs2 hget2
        (by simpa using hle)]
      rw [max_eq_left (le_of_not_le hle)]
      rfl
  · exact applyAnnot_mts_get



/-- Witness for C6 at the spec's concrete sizes 5/3 and 3/5. -/
theorem C6_max_table_size_monotone_witness :
    ApplyAnnotations [{ Package := "P", name := "F" }]
      [{ Package := "P", typ := "max-table-size", name := "F", size := 5 },
       { Package := "P", typ := "max-table-size", name := "F", size := 3 }] =
      [{ Package := "P", name := "F", maxTableSize := 5 }] ∧
    ApplyAnnotations [{ Package := "P", name := "F" }]
      [{ Package := "P", typ := "max-table-size", name := "F", size := 3 },
       { Package := "P", typ := "max-table-size", name := "F", size := 5 }] =
      [{ Package := "P", name := "F", maxTableSize := 5 }] := by
  constructor
  · have h := C6_max_table_size_monotone.1 { Package := "P", name := "F" } 5 3
      (by decide) rfl (by decide) (by decide)
    simpa using h
  · have h := C6_max_table_size_monotone.1 { Package := "P", name := "F" } 3 5
      (by decide) rfl (by decide) (by decide)
    simpa using h

/-- C7: malformed annotations are silent no-ops — empty name, missing
`other` where required, or non-positive `max-table-size` size leave the
map untouched and raise no error. -/
theorem C7_malformed_annotations_silent_noop (funcs : FMap) (a : Annot)
    (h : a.name = "" ∨
      (a.other = "" ∧ ¬(a.typ = "private" ∨ a.typ = "handle" ∨ a.typ = "max-table-size")) ∨
      (a.typ = "max-table-size" ∧ a.size ≤ 0)) :
    applyAnnot funcs a = funcs := by
  unfold applyAnnot
  rcases h with h | ⟨h1, h2⟩ | ⟨h1, h2⟩
  · simp [h]
  · by_cases hg : a.name = "" ∨ a.typ = ""
    · simp [hg]
    · simp [hg, h1, h2]
  · by_cases hg : a.name = "" ∨ a.typ = ""
    · simp [hg]
    · have : ¬(a.other = "" ∧ ¬(a.typ = "private" ∨ a.typ = "handle" ∨ a.typ = "max-table-size")) := by
        simp [h1]
      simp [hg, this, h1, h2]

/-- Witness for C7 on all three malformed shapes. -/
theorem C7_malformed_annotations_silent_noop_witness :
    applyAnnot [("p.f", { Package := "P", name := "F" })] { typ := "rename", name := "", other := "G" } =
      [("p.f", { Package := "P", name := "F" })] ∧
    applyAnnot [("p.f", { Package := "P", name := "F" })] { Package := "P", typ := "replace", name := "F", other := "" } =
      [("p.f", { Package := "P", name := "F" })] ∧
    applyAnnot [("p.f", { Package := "P", name := "F" })] { Package := "P", typ := "max-table-size", name := "F", size := 0 } =
      [("p.f", { Package := "P", name := "F" })] :=
  ⟨C7_malformed_annotations_silent_noop _ _ (Or.inl rfl),
   C7_malformed_annotations_silent_noop _ _ (Or.inr (Or.inl ⟨rfl, by simp⟩)),
   C7_malformed_annotations_silent_noop _ _ (Or.inr (Or.inr ⟨rfl, by decide⟩))⟩

/-- C8: `rename P.F -> P.G` followed by `private P.G` on the set
containing exactly `P.F` yields the empty output set. -/
theorem C8_rename_then_private_empty :
    ApplyAnnotations [{ Package := "P", name := "F" }]
      [{ Package := "P", typ := "rename", name := "F", other := "G" },
       { Package := "P", typ := "private", name := "G" }] = [] := by
  rfl



/-- C9 counterexample: the textual value 4294967296 = 2^32 lies outside
`[0, 2^32)` yet `mustBeUint` accepts it (the source checks `u > 1<<32`,
an inclusive bound), so "outside [0, 2^32) is a fatal parse error" fails
as stated. -/
theorem C9_count_bound_counterexample :
    mustBeUint "4294967296" = Except.ok 4294967296 ∧ ¬((4294967296 : Nat) < 2 ^ 32) :=
  ⟨rfl, by decide⟩

/-- C9 amended: blank numeric fields parse as zero; a parsed value
outside `[0, 2^32]` (inclusive upper bound) for count-like columns or
outside `[0, 255]` for byte-like columns is a fatal parse error, not a
clamp; in-range values are returned unchanged; an unparseable field
propagates the parse failure. -/
theorem C9_numeric_field_contract :
    (mustBeUint "" = Except.ok 0 ∧ mustBeUint8 "" = Except.ok 0)
    ∧ (∀ (text : String) (v : Int), atoi text = Except.ok v →
        ((v < 0 ∨ 2 ^ 32 < v) → mustBeUint text = Except.error (toString v ++ " out of range (not uint8)"))
        ∧ (0 ≤ v → v ≤ 2 ^ 32 → mustBeUint text = Except.ok v.toNat)
        ∧ ((v < 0 ∨ 255 < v) → mustBeUint8 text = Except.error (toString v ++ " out of range (not uint8)"))
        ∧ (0 ≤ v → v ≤ 255 → mustBeUint8 text = Except.ok v.toNat))
    ∧ (∀ (text : String) (e : String), atoi text = Except.error e → text ≠ "" →
        mustBeUint text = Except.error e ∧ mustBeUint8 text = Except.error e) := by
  refine ⟨⟨rfl, rfl⟩, ?_, ?_⟩
  · intro text v hv
    have hne : text ≠ "" := by
      intro hc
      rw [hc] at hv
      exact absurd hv (by simp [atoi])
    unfold mustBeUint mustBeUint8
    rw [if_neg hne, if_neg hne, hv]
    refine ⟨?_, ?_, ?_, ?_⟩
    · intro h
      simp only []
      rw [if_pos (by omega)]
    · intro h1 h2
      simp only []
      rw [if_neg (by omega)]
    · intro h
      simp only []
      rw [if_pos (by omega)]
    · intro h1 h2
      simp only []
      rw [if_neg (by omega)]
  · intro text e hv hne
    unfold mustBeUint mustBeUint8
    rw [if_neg hne, if_neg hne, hv]
    exact ⟨rfl, rfl⟩

/-- Witness for C9 at the boundary values. -/
theorem C9_numeric_field_contract_witness :
    mustBeUint "4294967297" = Except.error "4294967297 out of range (not uint8)"
    ∧ mustBeUint8 "256" = Except.error "256 out of range (not uint8)"
    ∧ mustBeUint "4294967296" = Except.ok 4294967296
    ∧ mustBeUint8 "255" = Except.ok 255
    ∧ mustBeUint "-7" = Except.error "-7 out of range (not uint8)" := by
  refine ⟨?_, ?_, ?_, ?_, ?_⟩
  · exact (C9_numeric_field_contract.2.1 "4294967297" 4294967297 rfl).1 (by decide)
  · exact (C9_numeric_field_contract.2.1 "256" 256 rfl).2.2.1 (by decide)
  · exact (C9_numeric_field_contract.2.1 "4294967296" 4294967296 rfl).2.1 (by decide) (by decide)
  · exact (C9_numeric_field_contract.2.1 "255" 255 rfl).2.2.2 (by decide) (by decide)
  · exact (C9_numeric_field_contract.2.1 "-7" (-7) (by unfold atoi; rfl)).1 (by decide)



/-- C10: any input stream shorter than 100 bytes — even a complete,
otherwise-valid CSV — makes `ReadCsv` fail with the peeking error and
produce no records, because delimiter auto-detection demands a full
100-byte prefix. -/
theorem C10_short_input_peek_error (s : String) (h : s.length < 100) :
    ReadCsv s = Except.error "error peeking into file: EOF" := by
  unfold ReadCsv
  rw [if_pos h]

/-- Witness for C10: a complete header-plus-row CSV of 57 bytes. -/
theorem C10_short_input_peek_error_witness :
    ("OBJECT_ID,SUBPROGRAM_ID,PACKAGE_NAME,OBJECT_NAME\n1,1,P,F" : String).length < 100 ∧
      ReadCsv "OBJECT_ID,SUBPROGRAM_ID,PACKAGE_NAME,OBJECT_NAME\n1,1,P,F" =
        Except.error "error peeking into file: EOF" :=
  ⟨by decide, C10_short_input_peek_error _ (by decide)⟩




/-- One-step unfolding of `pwmt` (its auto-generated equations are
conditional). -/
lemma pwmt_unfold (gt : PArg → String) (rh : String → String) (fuel : Nat)
    (msgName : String) (seen : List String) (args : List PArg) :
    pwmt gt rh fuel msgName seen args =
      match List.find? (fun a => a.flavor == Flavor.table && a.tableOf.isNone) args with
      | some a => (seen, Except.error (PErr.missingTableOf msgName a.name))
      | none =>
        match fuel with
        | 0 => (seen, Except.error PErr.outOfFuel)
        | fuel + 1 =>
          match pwmtLoop gt rh (pwmt gt rh fuel) msgName seen args 0 with
          | (seen1, Except.error e) => (seen1, Except.error e)
          | (seen1, Except.ok (fields, buf)) =>
            (seen1, Except.ok (Ev.head msgName :: fields ++ [Ev.line "\x7d\n"] ++ buf)) := by
  cases fuel <;> simp only [pwmt]


/-- C4: an argument set holding a `TABLE` argument with nil `TableOf`
makes `protoWriteMessageTyp` fail up front with `MissingElementType`
(`ErrMissingTableOf`), naming the message and the offending argument and
emitting nothing; `Function.SaveProtobuf` then fails for the whole
function without touching `seen`; and the surrounding `FunLoop` skips
exactly that function, continuing with the rest. -/
theorem C4_missing_element_type_skip :
    (∀ (gt : PArg → String) (rh : String → String) (fuel : Nat) (msgName : String)
        (seen : List String) (args : List PArg),
      (∃ a ∈ args, a.flavor = Flavor.table ∧ a.tableOf = none) →
      ∃ b ∈ args, b.flavor = Flavor.table ∧ b.tableOf = none ∧
        pwmt gt rh fuel msgName seen args =
          (seen, Except.error (PErr.missingTableOf msgName b.name)))
    ∧ (∀ (gt : PArg → String) (rh : String → String) (fuel : Nat) (f : PFunction)
          (seen : List String),
        (∃ a ∈ f.args, a.direction &&& DIR_IN > 0 ∧ a.flavor = Flavor.table ∧ a.tableOf = none) →
        ∃ b : PArg, funSaveProtobuf gt rh fuel f seen =
          (seen, Except.error (PErr.missingTableOf (dot2D (toLowerS f.name) ++ "__input") b.name)))
    ∧ (∀ (gt : PArg → String) (rh : String → String) (gsn : Bool → PFunction → String)
          (fuel : Nat) (f : PFunction) (rest : List PFunction) (seen s1 : List String)
          (e : PErr),
        funSaveProtobuf gt rh fuel f seen = (s1, Except.error e) →
        isMissingTableOf e = true →
        saveProtobufLoop gt rh gsn fuel (f :: rest) seen =
          saveProtobufLoop gt rh gsn fuel rest s1) := by
  have part1 : ∀ (gt : PArg → String) (rh : String → String) (fuel : Nat) (msgName : String)
      (seen : List String) (args : List PArg),
      (∃ a ∈ args, a.flavor = Flavor.table ∧ a.tableOf = none) →
      ∃ b ∈ args, b.flavor = Flavor.table ∧ b.tableOf = none ∧
        pwmt gt rh fuel msgName seen args =
          (seen, Except.error (PErr.missingTableOf msgName b.name)) := by
    intro gt rh fuel msgName seen args h
    obtain ⟨a, ha, hfl, htb⟩ := h
    have hsome : (List.find? (fun a => a.flavor == Flavor.table && a.tableOf.isNone) args).isSome := by
      rw [List.find?_isSome]
      exact ⟨a, ha, by simp [hfl, htb]⟩
    obtain ⟨b, hb⟩ := Option.isSome_iff_exists.mp hsome
    have hbmem := List.mem_of_find?_eq_some hb
    have hbp := List.find?_some hb
    simp only [Bool.and_eq_true, beq_iff_eq, Option.isNone_iff_eq_none] at hbp
    refine ⟨b, hbmem, hbp.1, hbp.2, ?_⟩
    rw [pwmt_unfold, hb]
  refine ⟨part1, ?_, ?_⟩
  · intro gt rh fuel f seen h
    obtain ⟨a, ha, hdir, hfl, htb⟩ := h
    have hmem : a ∈ f.args.filter (fun x => x.direction &&& DIR_IN > 0) := by
      rw [List.mem_filter]
      exact ⟨ha, by simpa using hdir⟩
    have h1 := part1 gt rh fuel (dot2D (toLowerS f.name) ++ "__input") seen
      (f.args.filter (fun x => x.direction &&& DIR_IN > 0)) ⟨a, hmem, hfl, htb⟩
    obtain ⟨b, _, _, _, hb⟩ := h1
    refine ⟨b, ?_⟩
    have happ : ("__" : String) ++ "input" = "__input" := rfl
    have hdirEq : saveProtobufDir gt rh fuel f seen false =
        pwmt gt rh fuel (dot2D (toLowerS f.name) ++ "__input") seen
          (f.args.filter (fun x => x.direction &&& DIR_IN > 0)) := by
      show pwmt gt rh fuel (dot2D (toLowerS f.name) ++ "__" ++ "input") seen
          (f.args.filter (fun x => x.direction &&& DIR_IN > 0)) = _
      rw [String.append_assoc, happ]
    unfold funSaveProtobuf
    rw [hdirEq, hb]
  · intro gt rh gsn fuel f rest seen s1 e hf he
    unfold saveProtobufLoop
    rw [hf]
    simp only [he, if_true]
    cases rest <;> rfl



/-- Witness for C4 on a concrete two-function emission. -/
theorem C4_missing_element_type_skip_witness :
    (∃ b ∈ [PArg.mk "t" 3 "TAB" Flavor.table none []], b.flavor = Flavor.table ∧ b.tableOf = none ∧
      pwmt (fun a => a.typ) (fun s => s) 7 "m" ["x"] [PArg.mk "t" 3 "TAB" Flavor.table none []] =
        (["x"], Except.error (PErr.missingTableOf "m" b.name)))
    ∧ (∃ b : PArg, funSaveProtobuf (fun a => a.typ) (fun s => s) 10
        { name := "P.F", args := [PArg.mk "t" 3 "TAB" Flavor.table none []] } ["x"] =
        (["x"], Except.error (PErr.missingTableOf (dot2D (toLowerS "P.F") ++ "__input") b.name)))
    ∧ saveProtobufLoop (fun a => a.typ) (fun s => s) (fun _ _ => "s") 10
        ({ name := "P.F", args := [PArg.mk "t" 3 "TAB" Flavor.table none []] } ::
          [{ name := "P.G", args := [PArg.mk "a" 3 "int32" Flavor.simple none []] }]) ["x"] =
      saveProtobufLoop (fun a => a.typ) (fun s => s) (fun _ _ => "s") 10
        [{ name := "P.G", args := [PArg.mk "a" 3 "int32" Flavor.simple none []] }] ["x"] := by
  refine ⟨?_, ?_, ?_⟩
  · exact C4_missing_element_type_skip.1 _ _ 7 "m" ["x"] _ ⟨PArg.mk "t" 3 "TAB" Flavor.table none [], by simp, rfl, rfl⟩
  · exact C4_missing_element_type_skip.2.1 _ _ 10 _ ["x"] ⟨PArg.mk "t" 3 "TAB" Flavor.table none [], by simp, by decide, rfl, rfl⟩
  · exact C4_missing_element_type_skip.2.2 _ _ _ 10 _ _ ["x"] ["x"] (PErr.missingTableOf "p__f__input" "t") rfl rfl




lemma heads_append (a b : List Ev) : heads (a ++ b) = heads a ++ heads b := by
  simp [heads]

lemma heads_line (s : String) (t : List Ev) : heads (Ev.line s :: t) = heads t := by
  simp [heads]

lemma heads_fieldLine (gt : PArg → String) (arg : PArg) (i : Nat) (t : List Ev) :
    heads (fieldLineOf gt arg i :: t) = heads t := by
  simp [heads, fieldLineOf]

lemma heads_head (n : String) (t : List Ev) : heads (Ev.head n :: t) = n :: heads t := by
  simp [heads]

lemma consField_ok (fieldLine : Ev) (r : List String × Except PErr (List Ev × List Ev))
    (seen' : List String) (fs buf : List Ev)
    (h : consField fieldLine r = (seen', Except.ok (fs, buf))) :
    ∃ fs0, r = (seen', Except.ok (fs0, buf)) ∧ fs = fieldLine :: fs0 := by
  unfold consField at h
  rcases r with ⟨s, r⟩
  cases r with
  | error e => simp at h
  | ok p =>
    rcases p with ⟨fs0, buf0⟩
    simp only [Prod.mk.injEq, Except.ok.injEq] at h
    obtain ⟨rfl, rfl, rfl⟩ := h
    exact ⟨fs0, rfl, rfl⟩

lemma consFieldBuf_ok (fieldLine : Ev) (subEv : List Ev)
    (r : List String × Except PErr (List Ev × List Ev))
    (seen' : List String) (fs buf : List Ev)
    (h : consFieldBuf fieldLine subEv r = (seen', Except.ok (fs, buf))) :
    ∃ fs0 buf0, r = (seen', Except.ok (fs0, buf0)) ∧ fs = fieldLine :: fs0 ∧ buf = subEv ++ buf0 := by
  unfold consFieldBuf at h
  rcases r with ⟨s, r⟩
  cases r with
  | error e => simp at h
  | ok p =>
    rcases p with ⟨fs0, buf0⟩
    simp only [Prod.mk.injEq, Except.ok.injEq] at h
    obtain ⟨rfl, rfl, rfl⟩ := h
    exact ⟨fs0, buf0, rfl, rfl, rfl⟩

set_option maxHeartbeats 2000000 in
lemma pwmtLoop_seen (gt : PArg → String) (rh : String → String)
    (recur : String → List String → List PArg → List String × Except PErr (List Ev))
    (Hrec : ∀ msgName seen args seen' ev, recur msgName seen args = (seen', Except.ok ev) →
      ∃ l, heads ev = msgName :: l ∧ (∀ x ∈ l, x ∉ seen) ∧
        (∀ x, x ∈ seen' ↔ x ∈ seen ∨ x ∈ l)) :
    ∀ (args : List PArg) (msgName : String) (seen : List String) (i : Nat)
      (seen' : List String) (fs buf : List Ev),
      pwmtLoop gt rh recur msgName seen args i = (seen', Except.ok (fs, buf)) →
      heads fs = [] ∧ ∃ l, heads buf = l ∧ (∀ x ∈ l, x ∉ seen) ∧
        (∀ x, x ∈ seen' ↔ x ∈ seen ∨ x ∈ l) := by
  intro args
  induction args with
  | nil =>
    intro msgName seen i seen' fs buf h
    simp only [pwmtLoop, Prod.mk.injEq, Except.ok.injEq] at h
    obtain ⟨rfl, rfl, rfl⟩ := h
    exact ⟨rfl, [], rfl, by simp, by simp⟩
  | cons arg0 rest ih =>
    intro msgName seen i seen' fs buf h
    rw [pwmtLoop] at h
    simp only [] at h
    split at h
    · exact absurd h (by simp)
    · split at h
      · obtain ⟨fs0, hr, rfl⟩ := consField_ok _ _ _ _ _ h
        obtain ⟨hfs, l, hbuf, hl, hseen⟩ := ih _ _ _ _ _ _ hr
        exact ⟨by rw [heads_fieldLine, hfs], l, hbuf, hl, hseen⟩
      · split at h
        · obtain ⟨fs0, hr, rfl⟩ := consField_ok _ _ _ _ _ h
          obtain ⟨hfs, l, hbuf, hl, hseen⟩ := ih _ _ _ _ _ _ hr
          exact ⟨by rw [heads_fieldLine, hfs], l, hbuf, hl, hseen⟩
        · split at h
          · exact absurd h (by simp)
          · rename_i hns hprod s1 subEv hrec
            obtain ⟨fs0, buf0, hr, rfl, rfl⟩ := consFieldBuf_ok _ _ _ _ _ _ h
            clear h hprod
            generalize htyp : (fieldInfo gt (renArg rh arg0)).2.1 = typx at hns hrec hr
            obtain ⟨l1, hh1, hl1, hs1⟩ := Hrec _ _ _ _ _ hrec
            obtain ⟨hfs, l2, hbuf, hl2, hseen⟩ := ih _ _ _ _ _ _ hr
            refine ⟨by rw [heads_fieldLine, hfs], _, by rw [heads_append, hh1, hbuf], ?_, ?_⟩
            · intro x hx
              simp only [List.mem_cons, List.mem_append] at hx
              rcases hx with (rfl | hx) | hx
              · simpa using hns
              · exact hl1 x hx
              · have hx2 := hl2 x hx
                simp only [List.mem_append, List.mem_singleton, not_or] at hx2
                intro hc
                exact hx2.1 ((hs1 x).mpr (Or.inl hc))
            · intro x
              have h2 := hseen x
              have h1 := hs1 x
              constructor
              · intro hx
                rcases h2.mp hx with hx2 | hx2
                · rcases List.mem_append.mp hx2 with hx3 | hx3
                  · rcases h1.mp hx3 with h4 | h4
                    · exact Or.inl h4
                    · exact Or.inr (List.mem_append.mpr (Or.inl (List.mem_cons.mpr (Or.inr h4))))
                  · exact Or.inr (List.mem_append.mpr (Or.inl
                      (List.mem_cons.mpr (Or.inl (List.mem_singleton.mp hx3)))))
                · exact Or.inr (List.mem_append.mpr (Or.inr hx2))
              · intro hx
                rcases hx with hx | hx
                · exact h2.mpr (Or.inl (List.mem_append.mpr (Or.inl (h1.mpr (Or.inl hx)))))
                · rcases List.mem_append.mp hx with hx2 | hx2
                  · rcases List.mem_cons.mp hx2 with rfl | h4
                    · exact h2.mpr (Or.inl (List.mem_append.mpr
                        (Or.inr (List.mem_singleton.mpr rfl))))
                    · exact h2.mpr (Or.inl (List.mem_append.mpr (Or.inl (h1.mpr (Or.inr h4)))))
                  · exact h2.mpr (Or.inr hx2)


lemma pwmt_seen (gt : PArg → String) (rh : String → String) :
    ∀ (fuel : Nat) (msgName : String) (seen : List String) (args : List PArg)
      (seen' : List String) (ev : List Ev),
      pwmt gt rh fuel msgName seen args = (seen', Except.ok ev) →
      ∃ l, heads ev = msgName :: l ∧ (∀ x ∈ l, x ∉ seen) ∧
        (∀ x, x ∈ seen' ↔ x ∈ seen ∨ x ∈ l) := by
  intro fuel
  induction fuel with
  | zero =>
    intro msgName seen args seen' ev h
    rw [pwmt_unfold] at h
    split at h
    · exact absurd h (by simp)
    · exact absurd h (by simp)
  | succ fuel ihf =>
    intro msgName seen args seen' ev h
    rw [pwmt_unfold] at h
    split at h
    · exact absurd h (by simp)
    · simp only [] at h
      cases hl : pwmtLoop gt rh (pwmt gt rh fuel) msgName seen args 0 with
      | mk seen1 r =>
        rw [hl] at h
        cases r with
        | error e => simp at h
        | ok p =>
          rcases p with ⟨fields, buf⟩
          simp only [Prod.mk.injEq, Except.ok.injEq] at h
          obtain ⟨rfl, rfl⟩ := h
          obtain ⟨hfs, l, hbuf, hl2, hseen⟩ :=
            pwmtLoop_seen gt rh (pwmt gt rh fuel) (fun m s a s2 e2 he => ihf m s a s2 e2 he)
              args msgName seen 0 seen1 fields buf hl
          refine ⟨l, ?_, hl2, hseen⟩
          have hline : heads [Ev.line "\x7d\n"] = [] := by simp [heads]
          simp [heads_append, heads_head, heads_line, hfs, hbuf, hline]


/-- C5 amended: one `protoWriteMessageTyp` run's successful event
stream declares, besides its own message, exactly the composite names
added to `seen` — each was absent from the set when the call began and
is recorded by the end — so a name already in the set is never
re-declared by that run or any later one sharing the set. -/
theorem C5_seen_dedup :
    ∀ (gt : PArg → String) (rh : String → String) (fuel : Nat) (msgName : String)
      (seen : List String) (args : List PArg) (seen' : List String) (ev : List Ev),
      pwmt gt rh fuel msgName seen args = (seen', Except.ok ev) →
      ∃ l, heads ev = msgName :: l ∧ (∀ x ∈ l, x ∉ seen) ∧
        (∀ x, x ∈ seen' ↔ x ∈ seen ∨ x ∈ l) :=
  fun gt rh => pwmt_seen gt rh

/-- C5 counterexample: with two structurally different records both
resolving to the type name `t_shared`, the single emitted `t_shared`
message carries the FIRST record's field (`sint32 x`) and none of the
later record's fields — the first writer wins, not the last; moreover a
composite nested inside a same-named composite is declared twice, so
"at most once" also fails exactly on such collisions. -/
theorem C5_first_writer_wins_counterexample :
    (pwmt (fun a => a.typ) (fun s => s) 10 "m" []
        [PArg.mk "a" 1 "T_shared" Flavor.record none
          [PArg.mk "x" 1 "int32" Flavor.simple none []],
         PArg.mk "b" 1 "T_shared" Flavor.record none
          [PArg.mk "y" 1 "float64" Flavor.simple none [],
           PArg.mk "z" 1 "varchar2" Flavor.simple none []]] =
      (["t_shared"], Except.ok
        [Ev.head "m", Ev.line "\tt_shared a = 1;\n", Ev.line "\tt_shared b = 2;\n",
         Ev.line "\x7d\n", Ev.head "t_shared", Ev.line "\tsint32 x = 1;\n",
         Ev.line "\x7d\n"]))
    ∧ Ev.line "\tdouble y = 1;\n" ∉
        [Ev.head "m", Ev.line "\tt_shared a = 1;\n", Ev.line "\tt_shared b = 2;\n",
         Ev.line "\x7d\n", Ev.head "t_shared", Ev.line "\tsint32 x = 1;\n",
         Ev.line "\x7d\n"]
    ∧ heads ((pwmt (fun a => a.typ) (fun s => s) 10 "m" []
        [PArg.mk "a" 1 "T" Flavor.record none
          [PArg.mk "b" 1 "T" Flavor.record none
            [PArg.mk "z" 1 "int32" Flavor.simple none []]]]).2.toOption.getD []) =
      ["m", "t", "t"] :=
  ⟨rfl, by decide, rfl⟩

/-- Witness for C5 on the concrete colliding-records run. -/
theorem C5_seen_dedup_witness :
    ∃ l, heads
        [Ev.head "m", Ev.line "\tt_shared a = 1;\n", Ev.line "\tt_shared b = 2;\n",
         Ev.line "\x7d\n", Ev.head "t_shared", Ev.line "\tsint32 x = 1;\n",
         Ev.line "\x7d\n"] = "m" :: l ∧
      (∀ x ∈ l, x ∉ ([] : List String)) ∧
      (∀ x, x ∈ ["t_shared"] ↔ x ∈ ([] : List String) ∨ x ∈ l) :=
  C5_seen_dedup (fun a => a.typ) (fun s => s) 10 "m" []
    [PArg.mk "a" 1 "T_shared" Flavor.record none
      [PArg.mk "x" 1 "int32" Flavor.simple none []],
     PArg.mk "b" 1 "T_shared" Flavor.record none
      [PArg.mk "y" 1 "float64" Flavor.simple none [],
       PArg.mk "z" 1 "varchar2" Flavor.simple none []]]
    ["t_shared"]
    [Ev.head "m", Ev.line "\tt_shared a = 1;\n", Ev.line "\tt_shared b = 2;\n",
     Ev.line "\x7d\n", Ev.head "t_shared", Ev.line "\tsint32 x = 1;\n",
     Ev.line "\x7d\n"] rfl


lemma toInt8_of_le (n : Nat) (h : n ≤ 127) : toInt8 n = n := by
  unfold toInt8
  have h2 : n % 256 = n := Nat.mod_eq_of_lt (by omega)
  rw [h2]
  simp [h2]
  omega

lemma toInt8_range (n : Nat) : -128 ≤ toInt8 n ∧ toInt8 n ≤ 127 := by
  unfold toInt8
  have h2 : n % 256 < 256 := Nat.mod_lt _ (by omega)
  by_cases h : n % 256 < 128 <;> simp [h] <;> omega

lemma sub8_eq (a : Int) (h1 : -127 ≤ a) (h2 : a ≤ 128) : sub8 a 1 = a - 1 := by
  unfold sub8
  omega

lemma sub8_ne_self (a : Int) (h1 : -128 ≤ a) (h2 : a ≤ 127) : sub8 a 1 ≠ a := by
  unfold sub8
  omega

lemma lookupL_cons_self (la : List (Int × Nat)) (k : Int) (v : Nat) :
    lookupL ((k, v) :: la) k = some v := by
  simp [lookupL, List.find?]

lemma lookupL_cons_ne (la : List (Int × Nat)) (k : Int) (v : Nat) (k' : Int) (h : k' ≠ k) :
    lookupL ((k, v) :: la) k' = lookupL la k' := by
  have : ¬(k = k') := fun hc => h hc.symm
  simp [lookupL, List.find?, this]

lemma la1Of_lookup (st : BuildState) (ua : UserArgument) :
    lookupL (la1Of st ua) (sub8 (toInt8 ua.dataLevel) 1) =
      lookupL st.lastArgs (sub8 (toInt8 ua.dataLevel) 1) := by
  unfold la1Of
  split
  · exact lookupL_cons_ne _ _ _ _
      (sub8_ne_self _ (toInt8_range ua.dataLevel).1 (toInt8_range ua.dataLevel).2)
  · rfl

lemma set_append_len {α : Type} (l : List α) (x y : α) :
    (l ++ [x]).set l.length y = l ++ [y] := by
  induction l with
  | nil => rfl
  | cons a l ih => simp [List.set, ih]

lemma processRow_ret (st : BuildState) (fn : Function) (ua : UserArgument)
    (h0 : toInt8 ua.dataLevel = 0) (hr : fn.returns = none) (hn : ua.argumentName = "") :
    processRow st fn ua =
      Except.ok
        (⟨st.heap ++ [{ argOf ua with name := "ret" }], la1Of st ua⟩,
         { fn with returns := some st.heap.length }) := by
  unfold processRow la1Of
  rw [if_pos ⟨h0, hr, hn⟩]
  rw [set_append_len]

lemma processRow_noparent (st : BuildState) (fn : Function) (ua : UserArgument)
    (hret : ¬(toInt8 ua.dataLevel = 0 ∧ fn.returns = none ∧ ua.argumentName = ""))
    (hlk : lookupL st.lastArgs (sub8 (toInt8 ua.dataLevel) 1) = none) :
    processRow st fn ua = Except.error (BuildErr.invalidHierarchy (toInt8 ua.dataLevel)) := by
  unfold processRow
  rw [if_neg (by simpa using hret)]
  have h2 : lookupL (la1Of st ua) (sub8 (toInt8 ua.dataLevel) 1) = none :=
    (la1Of_lookup st ua).trans hlk
  unfold la1Of at h2
  rw [h2]

lemma processRow_attach (st : BuildState) (fn : Function) (ua : UserArgument) (p : Nat)
    (hret : ¬(toInt8 ua.dataLevel = 0 ∧ fn.returns = none ∧ ua.argumentName = ""))
    (hlk : lookupL st.lastArgs (sub8 (toInt8 ua.dataLevel) 1) = some p)
    (hp : p < st.heap.length) :
    processRow st fn ua =
      Except.ok
        (⟨(st.heap ++ [argOf ua]).set p
            (attachTo (st.heap.getD p defaultArg) ua.argumentName st.heap.length),
          la1Of st ua⟩, fn) := by
  unfold processRow
  rw [if_neg (by simpa using hret)]
  have h2 : lookupL (la1Of st ua) (sub8 (toInt8 ua.dataLevel) 1) = some p :=
    (la1Of_lookup st ua).trans hlk
  unfold la1Of at h2
  rw [h2]
  have hget : (st.heap ++ [argOf ua]).getD p defaultArg = st.heap.getD p defaultArg := by
    unfold List.getD
    rw [List.get?_append hp]
  simp only []
  rw [hget]
  unfold attachTo
  split <;> rfl


/-- C2: parent resolution and attachment of the tree builder.  A row not
diverted to the return value resolves its parent as the most recent
non-simple node recorded at `level - 1`; a missing parent is the fatal
`invalidHierarchy`; a table parent takes the new node as its sole
element type (overwriting any earlier one), any other parent appends it
as a named record field in row order.  The concrete scenario runs one
batch - TABLE at level 0, RECORD at level 1, two SIMPLE rows at
level 2 - through `ParseArguments` and yields a table whose element is
a record with exactly those two named fields, in input order. -/
theorem C2_parent_resolution :
    (∀ (st : BuildState) (fn : Function) (ua : UserArgument),
      ¬(toInt8 ua.dataLevel = 0 ∧ fn.returns = none ∧ ua.argumentName = "") →
      (lookupL st.lastArgs (sub8 (toInt8 ua.dataLevel) 1) = none →
        processRow st fn ua = Except.error (BuildErr.invalidHierarchy (toInt8 ua.dataLevel)))
      ∧ (∀ p, lookupL st.lastArgs (sub8 (toInt8 ua.dataLevel) 1) = some p →
          p < st.heap.length →
          ((st.heap.getD p defaultArg).flavor = Flavor.table →
            processRow st fn ua = Except.ok
              (⟨(st.heap ++ [argOf ua]).set p
                  { st.heap.getD p defaultArg with tableOf := some st.heap.length },
                la1Of st ua⟩, fn))
          ∧ ((st.heap.getD p defaultArg).flavor ≠ Flavor.table →
              processRow st fn ua = Except.ok
                (⟨(st.heap ++ [argOf ua]).set p
                    { st.heap.getD p defaultArg with
                        recordOf := (st.heap.getD p defaultArg).recordOf ++
                          [(ua.argumentName, st.heap.length)] },
                  la1Of st ua⟩, fn))))
    ∧ (∃ res, ParseArguments
        [[{ packageName := "P", objectName := "F", argumentName := "t",
            dataType := "TABLE", dataLevel := 0 },
          { packageName := "P", objectName := "F", argumentName := "",
            dataType := "PL/SQL RECORD", dataLevel := 1 },
          { packageName := "P", objectName := "F", argumentName := "f1",
            dataType := "VARCHAR2", dataLevel := 2 },
          { packageName := "P", objectName := "F", argumentName := "f2",
            dataType := "NUMBER", dataLevel := 2 }]] none = Except.ok [res] ∧
        res.fn.args.map Argument.name = ["t"] ∧
        (res.fn.args.getD 0 defaultArg).flavor = Flavor.table ∧
        (res.fn.args.getD 0 defaultArg).tableOf = some 2 ∧
        (res.heap.getD 2 defaultArg).flavor = Flavor.record ∧
        (res.heap.getD 2 defaultArg).recordOf = [("f1", 3), ("f2", 4)] ∧
        (res.heap.getD 3 defaultArg).name = "f1" ∧
        (res.heap.getD 3 defaultArg).flavor = Flavor.simple ∧
        (res.heap.getD 4 defaultArg).name = "f2" ∧
        (res.heap.getD 4 defaultArg).flavor = Flavor.simple) := by
  constructor
  · intro st fn ua hret
    refine ⟨processRow_noparent st fn ua hret, ?_⟩
    intro p hlk hp
    constructor
    · intro htab
      have h := processRow_attach st fn ua p hret hlk hp
      rw [h]
      unfold attachTo
      rw [if_pos htab]
    · intro htab
      have h := processRow_attach st fn ua p hret hlk hp
      rw [h]
      unfold attachTo
      rw [if_neg htab]
  · exact ⟨_, rfl, rfl, rfl, rfl, rfl, rfl, rfl, rfl, rfl, rfl⟩


lemma parseBatch_cons (filter? : Option (String → Bool)) (ua0 : UserArgument)
    (rest : List UserArgument) :
    parseBatch filter? (ua0 :: rest) =
      if ua0.objectName = "" then Except.error BuildErr.emptyName
      else if backS ua0.objectName = '#' then Except.ok none
      else if (match filter? with | some f => !(f ua0.objectName) | none => false) then
        Except.ok none
      else
        match processRows ⟨[{ flavor := Flavor.record }], [(-1, 0)]⟩
            { Package := ua0.packageName, name := ua0.objectName, lastDDL := ua0.lastDDL }
            (ua0 :: rest) with
        | Except.error e => Except.error e
        | Except.ok (st, fn) =>
          Except.ok (some (FuncResult.mk
            { fn with args := (((st.heap.getD ((lookupL st.lastArgs (-1)).getD 0) defaultArg).recordOf).map (fun q => st.heap.getD q.2 defaultArg)) }
            st.heap)) := rfl

/-- C3: return-value rule of the tree builder.  An unnamed level-0 row
arriving while `returns` is unset becomes the function's return value
with its name forced to `"ret"` and is attached to no parent; every
successful `parseBatch` result draws `args` exactly from the fields
attached to the synthetic root, in attachment order, so the return
value never appears among them.  The concrete scenario checks `P.F`
with an unnamed NUMBER row and a named row, both at level 0. -/
theorem C3_return_rule :
    (∀ (st : BuildState) (fn : Function) (ua : UserArgument),
      toInt8 ua.dataLevel = 0 → fn.returns = none → ua.argumentName = "" →
      processRow st fn ua =
        Except.ok
          (⟨st.heap ++ [{ argOf ua with name := "ret" }], la1Of st ua⟩,
           { fn with returns := some st.heap.length }))
    ∧ (∀ (filter? : Option (String → Bool)) (uas : List UserArgument) (res : FuncResult),
        parseBatch filter? uas = Except.ok (some res) →
        ∃ (ua0 : UserArgument) (rest : List UserArgument) (st : BuildState) (fn : Function),
          uas = ua0 :: rest ∧
          processRows ⟨[{ flavor := Flavor.record }], [(-1, 0)]⟩
            { Package := ua0.packageName, name := ua0.objectName, lastDDL := ua0.lastDDL }
            uas = Except.ok (st, fn) ∧
          res.heap = st.heap ∧
          res.fn.args =
            ((st.heap.getD ((lookupL st.lastArgs (-1)).getD 0) defaultArg).recordOf).map
              (fun q => st.heap.getD q.2 defaultArg))
    ∧ (∃ res, ParseArguments
        [[{ packageName := "P", objectName := "F", argumentName := "",
            dataType := "NUMBER", dataLevel := 0 },
          { packageName := "P", objectName := "F", argumentName := "A",
            dataType := "VARCHAR2", dataLevel := 0 }]] none = Except.ok [res] ∧
        res.fn.returns = some 1 ∧
        (res.heap.getD 1 defaultArg).name = "ret" ∧
        (res.heap.getD 1 defaultArg).typ = "NUMBER" ∧
        res.fn.args.map Argument.name = ["A"]) := by
  refine ⟨processRow_ret, ?_, ?_⟩
  · intro filter? uas res h
    cases uas with
    | nil => exact absurd h (by simp [parseBatch])
    | cons ua0 rest =>
      rw [parseBatch_cons] at h
      split at h
      · exact absurd h (by simp)
      · split at h
        · exact absurd h (by simp)
        · split at h
          · exact absurd h (by simp)
          · cases hpr : processRows ⟨[{ flavor := Flavor.record }], [(-1, 0)]⟩
                { Package := ua0.packageName, name := ua0.objectName, lastDDL := ua0.lastDDL }
                (ua0 :: rest) with
            | error e =>
              rw [hpr] at h
              exact absurd h (by simp)
            | ok q =>
              rcases q with ⟨st, fn⟩
              rw [hpr] at h
              simp only [Except.ok.injEq, Option.some.injEq] at h
              refine ⟨ua0, rest, st, fn, rfl, hpr, ?_, ?_⟩
              · rw [← h]
              · rw [← h]
  · exact ⟨_, rfl, rfl, rfl, rfl, rfl⟩

/-- Witness for C2: a concrete table parent receiving its element. -/
theorem C2_parent_resolution_witness :
    ¬(toInt8 (({ packageName := "P", objectName := "F", argumentName := "x",
                 dataType := "NUMBER", dataLevel := 1 } : UserArgument).dataLevel) = 0 ∧
        ({ Package := "P", name := "F" } : Function).returns = none ∧
        ({ packageName := "P", objectName := "F", argumentName := "x",
           dataType := "NUMBER", dataLevel := 1 } : UserArgument).argumentName = "") ∧
    processRow ⟨[{ name := "t", flavor := Flavor.table }], [(0, 0)]⟩
        { Package := "P", name := "F" }
        { packageName := "P", objectName := "F", argumentName := "x",
          dataType := "NUMBER", dataLevel := 1 } =
      Except.ok
        (⟨(([{ name := "t", flavor := Flavor.table }] : List Argument) ++
              [argOf { packageName := "P", objectName := "F", argumentName := "x",
                       dataType := "NUMBER", dataLevel := 1 }]).set 0
            { (([{ name := "t", flavor := Flavor.table }] : List Argument).getD 0 defaultArg) with
                tableOf := some 1 },
          la1Of ⟨[{ name := "t", flavor := Flavor.table }], [(0, 0)]⟩
            { packageName := "P", objectName := "F", argumentName := "x",
              dataType := "NUMBER", dataLevel := 1 }⟩,
         { Package := "P", name := "F" }) :=
  ⟨by decide,
   ((C2_parent_resolution.1 ⟨[{ name := "t", flavor := Flavor.table }], [(0, 0)]⟩
       { Package := "P", name := "F" }
       { packageName := "P", objectName := "F", argumentName := "x",
         dataType := "NUMBER", dataLevel := 1 } (by decide)).2 0 rfl (by decide)).1 rfl⟩

/-- Witness for C3: a concrete unnamed level-0 row diverted to
`returns` under the name `"ret"`. -/
theorem C3_return_rule_witness :
    toInt8 (({ packageName := "P", objectName := "F", dataType := "NUMBER" } :
        UserArgument).dataLevel) = 0 ∧
    ({ Package := "P", name := "F" } : Function).returns = none ∧
    ({ packageName := "P", objectName := "F", dataType := "NUMBER" } :
        UserArgument).argumentName = "" ∧
    processRow ⟨[{ flavor := Flavor.record }], [(-1, 0)]⟩ { Package := "P", name := "F" }
        { packageName := "P", objectName := "F", dataType := "NUMBER" } =
      Except.ok
        (⟨([{ flavor := Flavor.record }] : List Argument) ++
            [{ argOf { packageName := "P", objectName := "F", dataType := "NUMBER" } with
                 name := "ret" }],
          la1Of ⟨[{ flavor := Flavor.record }], [(-1, 0)]⟩
            { packageName := "P", objectName := "F", dataType := "NUMBER" }⟩,
         { ({ Package := "P", name := "F" } : Function) with returns := some 1 }) :=
  ⟨rfl, rfl, rfl,
   C3_return_rule.1 ⟨[{ flavor := Flavor.record }], [(-1, 0)]⟩ { Package := "P", name := "F" }
     { packageName := "P", objectName := "F", dataType := "NUMBER" } rfl rfl rfl⟩

lemma sizeT_pos (t : ATree) : 1 ≤ sizeT t := by
  cases t <;> simp [sizeT]

lemma rowsT_record (pkg obj n : String) (fs : AForest) (lvl : Nat) :
    rowsT pkg obj (ATree.recordA n fs) lvl =
      { packageName := pkg, objectName := obj, argumentName := n,
        dataType := "PL/SQL RECORD", dataLevel := lvl } :: rowsF pkg obj fs (lvl + 1) := by
  simp [rowsT]

lemma flattenL_zero (heap : List Argument) (is : List Nat) (lvl : Nat) :
    flattenL heap 0 is lvl = [] := rfl

lemma flattenL_succ_nil (heap : List Argument) (f lvl : Nat) :
    flattenL heap (f + 1) [] lvl = [] := rfl

lemma flattenL_succ_cons (heap : List Argument) (f : Nat) (i : Nat) (rest : List Nat) (lvl : Nat) :
    flattenL heap (f + 1) (i :: rest) lvl =
      (match heap.get? i with
       | none => []
       | some a => flatNode (flattenL heap f) a lvl) ++ flattenL heap (f + 1) rest lvl := rfl

lemma processRows_append (st : BuildState) (fn : Function) (l1 l2 : List UserArgument) :
    processRows st fn (l1 ++ l2) =
      match processRows st fn l1 with
      | Except.error e => Except.error e
      | Except.ok (st', fn') => processRows st' fn' l2 := by
  induction l1 generalizing st fn with
  | nil => simp [processRows]
  | cons ua rest ih =>
    simp only [List.cons_append, processRows]
    cases processRow st fn ua with
    | error e => rfl
    | ok q => exact ih q.1 q.2

lemma lookupL_append_not_mem (pre la : List (Int × Nat)) (k : Int)
    (h : ∀ q ∈ pre, q.1 ≠ k) :
    lookupL (pre ++ la) k = lookupL la k := by
  induction pre with
  | nil => rfl
  | cons q rest ih =>
    obtain ⟨p, v⟩ := q
    rw [List.cons_append,
      lookupL_cons_ne (rest ++ la) p v k (Ne.symm (h (p, v) (List.mem_cons_self _ _)))]
    exact ih (fun q hq => h q (List.mem_cons_of_mem _ hq))

lemma labelsF_bounds (fs : AForest) (base : Nat) :
    ∀ q ∈ labelsF fs base, base ≤ q.2 ∧ q.2 < base + sizeF fs := by
  cases fs with
  | nilF => simp [labelsF]
  | consF t ts =>
    intro q hq
    simp only [labelsF, List.mem_cons] at hq
    rcases hq with rfl | hq
    · have := sizeT_pos t
      simp [sizeF]; omega
    · have h := labelsF_bounds ts (base + sizeT t) q hq
      simp [sizeF] at h ⊢; omega

lemma get?_getD (l : List Argument) (i : Nat) (h : i < l.length) :
    l.get? i = some (l.getD i defaultArg) := by
  simp [List.getD, List.get?_eq_getElem?, List.getElem?_eq_getElem h]

lemma attachTo_of_table (a : Argument) (nm : String) (idx : Nat) (h : a.flavor = Flavor.table) :
    attachTo a nm idx = { a with tableOf := some idx } := by
  unfold attachTo; rw [if_pos h]

lemma attachTo_of_not_table (a : Argument) (nm : String) (idx : Nat)
    (h : a.flavor ≠ Flavor.table) :
    attachTo a nm idx = { a with recordOf := a.recordOf ++ [(nm, idx)] } := by
  unfold attachTo; rw [if_neg h]

lemma attachList_of_not_table (a : Argument) (l : List (String × Nat))
    (h : a.flavor ≠ Flavor.table) :
    attachList a l = { a with recordOf := a.recordOf ++ l } := by
  induction l generalizing a with
  | nil => simp [attachList]
  | cons q rest ih =>
    obtain ⟨nm, idx⟩ := q
    rw [attachList, attachTo_of_not_table a nm idx h]
    rw [ih { a with recordOf := a.recordOf ++ [(nm, idx)] } h]
    simp

lemma flattenL_congr (h1 h2 : List Argument) (lo stop : Nat)
    (hag : ∀ i, lo ≤ i → i < stop → h2.get? i = h1.get? i)
    (hreg : ∀ i a, lo ≤ i → i < stop → h1.get? i = some a →
      ∀ j ∈ childIdxs a, i < j ∧ j < stop) :
    ∀ (f : Nat) (is : List Nat) (lvl : Nat), (∀ i ∈ is, lo ≤ i ∧ i < stop) →
      flattenL h2 f is lvl = flattenL h1 f is lvl := by
  intro f
  induction f with
  | zero => intro is lvl _; rfl
  | succ f ihf =>
    intro is lvl
    induction is with
    | nil => intro _; rfl
    | cons i rest ihis =>
      intro hmem
      have hi := hmem i (List.mem_cons_self _ _)
      rw [flattenL_succ_cons, flattenL_succ_cons, hag i hi.1 hi.2]
      have htail : flattenL h2 (f + 1) rest lvl = flattenL h1 (f + 1) rest lvl :=
        ihis (fun j hj => hmem j (List.mem_cons_of_mem _ hj))
      rw [htail]
      congr 1
      cases hget : h1.get? i with
      | none => rfl
      | some a =>
        have hch := hreg i a hi.1 hi.2 hget
        simp only [flatNode]
        congr 1
        cases hfl : a.flavor with
        | simple => rfl
        | record =>
          apply ihf
          intro j hj
          have hmem2 : j ∈ childIdxs a := by
            unfold childIdxs
            exact List.mem_append_left _ hj
          have := hch j hmem2
          exact ⟨by omega, this.2⟩
        | table =>
          cases hto : a.tableOf with
          | none => rfl
          | some e =>
            apply ihf
            intro j hj
            simp only [List.mem_singleton] at hj
            subst hj
            have hmem2 : j ∈ childIdxs a := by
              unfold childIdxs
              rw [hto]
              exact List.mem_append_right _ (List.mem_singleton_self _)
            have := hch j hmem2
            exact ⟨by omega, this.2⟩

lemma flattenArgs_eq_flattenL (heap : List Argument) (fuel : Nat) (is : List Nat) (lvl : Nat)
    (h : ∀ i ∈ is, i < heap.length) :
    flattenArgs heap fuel (is.map (fun i => heap.getD i defaultArg)) lvl =
      flattenL heap (fuel + 1) is lvl := by
  induction is with
  | nil => rfl
  | cons i rest ih =>
    rw [List.map_cons, flattenL_succ_cons,
      get?_getD heap i (h i (List.mem_cons_self _ _))]
    show flatNode _ _ _ ++ _ = _
    rw [ih (fun j hj => h j (List.mem_cons_of_mem _ hj))]

lemma rowsF_map_flatten :
    ∀ (n : Nat) (fs : AForest), sizeF fs < n → ∀ (pkg obj : String) (lvl : Nat),
      (rowsF pkg obj fs lvl).map (fun ua => (ua.dataLevel, ua.argumentName)) =
        flattenAF fs lvl := by
  intro n
  induction n with
  | zero => intro fs h; omega
  | succ n ih =>
    intro fs h pkg obj lvl
    cases fs with
    | nilF => simp [rowsF, flattenAF]
    | consF t ts =>
      have hts : sizeF ts < n := by
        have := sizeT_pos t; simp [sizeF] at h; omega
      cases t with
      | simpleA nm dt =>
        simp only [rowsF, rowsT, flattenAF, flattenA, List.map_append, List.map_cons,
          List.map_nil, List.singleton_append]
        rw [ih ts hts pkg obj lvl]
      | recordA nm fields =>
        have hf : sizeF fields < n := by simp [sizeF, sizeT] at h; omega
        simp only [rowsF, rowsT, flattenAF, flattenA, List.map_append, List.map_cons,
          List.cons_append]
        rw [ih fields hf pkg obj (lvl + 1), ih ts hts pkg obj lvl]
      | tableA nm e =>
        have he : sizeF (AForest.consF e AForest.nilF) < n := by
          simp [sizeF, sizeT] at h ⊢; omega
        have hrw : rowsT pkg obj e (lvl + 1) =
            rowsF pkg obj (AForest.consF e AForest.nilF) (lvl + 1) := by
          simp [rowsF]
        have hfl : flattenA e (lvl + 1) =
            flattenAF (AForest.consF e AForest.nilF) (lvl + 1) := by
          simp [flattenAF]
        simp only [rowsF, rowsT, flattenAF, flattenA, List.map_append, List.map_cons,
          List.cons_append]
        rw [hrw, hfl, ih (AForest.consF e AForest.nilF) he pkg obj (lvl + 1),
          ih ts hts pkg obj lvl]

lemma getD_eq (l : List Argument) (i : Nat) (a : Argument) (h : l.get? i = some a) :
    l.getD i defaultArg = a := by
  simp [List.getD_eq_getElem?_getD, ← List.get?_eq_getElem?, h]

lemma flattenL_nil (heap : List Argument) (f lvl : Nat) :
    flattenL heap f [] lvl = [] := by
  cases f <;> rfl

lemma argOf_row (pkg obj nm dt : String) (lvl : Nat) :
    argOf { packageName := pkg, objectName := obj, argumentName := nm,
            dataType := dt, dataLevel := lvl } =
      { name := nm, flavor := flavorOfDataType dt, typ := dt, absType := "..@" } := by
  have hd : dirOf "" = 0 := rfl
  simp [argOf, NewArgument, hd]

lemma processRow_step (st : BuildState) (fn : Function) (pkg obj nm dt : String) (lvl p : Nat)
    (hl : lvl ≤ 127) (hnm : lvl = 0 → nm ≠ "")
    (hp : lookupL st.lastArgs ((lvl : Int) - 1) = some p)
    (hplt : p < st.heap.length) :
    processRow st fn
        { packageName := pkg, objectName := obj, argumentName := nm,
          dataType := dt, dataLevel := lvl } =
      Except.ok
        (⟨(st.heap ++
              [argOf { packageName := pkg, objectName := obj, argumentName := nm,
                       dataType := dt, dataLevel := lvl }]).set p
            (attachTo (st.heap.getD p defaultArg) nm st.heap.length),
          la1Of st { packageName := pkg, objectName := obj, argumentName := nm,
                     dataType := dt, dataLevel := lvl }⟩, fn) := by
  have h0 : toInt8 lvl = (lvl : Int) := toInt8_of_le lvl hl
  apply processRow_attach
  · rintro ⟨hc0, -, hcn⟩
    have hc0' : toInt8 lvl = 0 := hc0
    rw [h0] at hc0'
    have hlvl0 : lvl = 0 := by omega
    exact hnm hlvl0 hcn
  · have hkey : sub8 (toInt8 lvl) 1 = (lvl : Int) - 1 := by
      rw [h0]
      exact sub8_eq _ (by omega) (by omega)
    show lookupL st.lastArgs (sub8 (toInt8 lvl) 1) = some p
    rw [hkey]
    exact hp
  · exact hplt

lemma la1Of_nonsimple (st : BuildState) (pkg obj nm dt : String) (lvl : Nat)
    (h : flavorOfDataType dt ≠ Flavor.simple) (hl : lvl ≤ 127) :
    la1Of st { packageName := pkg, objectName := obj, argumentName := nm,
               dataType := dt, dataLevel := lvl } =
      ((lvl : Int), st.heap.length) :: st.lastArgs := by
  unfold la1Of
  rw [if_pos (show (argOf { packageName := pkg, objectName := obj, argumentName := nm, dataType := dt, dataLevel := lvl }).flavor ≠ Flavor.simple from h)]
  have h0 : toInt8 lvl = (lvl : Int) := toInt8_of_le lvl hl
  rw [show toInt8 ({ packageName := pkg, objectName := obj, argumentName := nm, dataType := dt, dataLevel := lvl } : UserArgument).dataLevel = (lvl : Int) from h0]

lemma la1Of_simple (st : BuildState) (pkg obj nm dt : String) (lvl : Nat)
    (h : flavorOfDataType dt = Flavor.simple) :
    la1Of st { packageName := pkg, objectName := obj, argumentName := nm,
               dataType := dt, dataLevel := lvl } = st.lastArgs := by
  unfold la1Of
  rw [if_neg (show ¬(argOf { packageName := pkg, objectName := obj, argumentName := nm, dataType := dt, dataLevel := lvl }).flavor ≠ Flavor.simple from fun hne => hne h)]

lemma argOf_row_eq (pkg obj nm dt : String) (lvl : Nat) :
    argOf { packageName := pkg, objectName := obj, argumentName := nm,
            dataType := dt, dataLevel := lvl } = rowArg nm dt := argOf_row pkg obj nm dt lvl

lemma buildRows :
    ∀ (n : Nat) (fs : AForest), sizeF fs < n →
    ∀ (pkg obj : String) (lvl : Nat) (st : BuildState) (fn : Function) (p : Nat),
      wfF fs lvl →
      lookupL st.lastArgs ((lvl : Int) - 1) = some p →
      p < st.heap.length →
      ∃ heap' la',
        processRows st fn (rowsF pkg obj fs lvl) = Except.ok (⟨heap', la'⟩, fn) ∧
        heap'.length = st.heap.length + sizeF fs ∧
        (∀ i, i ≠ p → i < st.heap.length → heap'.get? i = st.heap.get? i) ∧
        heap'.get? p =
          some (attachList (st.heap.getD p defaultArg) (labelsF fs st.heap.length)) ∧
        (∃ pre, la' = pre ++ st.lastArgs ∧ ∀ q ∈ pre, (lvl : Int) ≤ q.1) ∧
        (∀ i a, st.heap.length ≤ i → heap'.get? i = some a →
          ∀ j ∈ childIdxs a, i < j ∧ j < heap'.length) ∧
        (∀ f, sizeF fs ≤ f →
          flattenL heap' f ((labelsF fs st.heap.length).map Prod.snd) lvl =
            flattenAF fs lvl) := by
  intro n
  induction n with
  | zero => intro fs h; omega
  | succ n ih =>
    intro fs hsz pkg obj lvl st fn p hwf hp hplt
    cases fs with
    | nilF =>
      refine ⟨st.heap, st.lastArgs, ?_, by simp [sizeF], fun i _ _ => rfl, ?_,
        ⟨[], rfl, by simp⟩, ?_, ?_⟩
      · simp [rowsF, processRows]
      · rw [labelsF]
        show st.heap.get? p = some (st.heap.getD p defaultArg)
        exact get?_getD st.heap p hplt
      · intro i a hi hget j _
        rcases List.get?_eq_some.mp hget with ⟨hlt, _⟩
        omega
      · intro f _
        simp [labelsF, flattenAF, flattenL_nil]
    | consF t ts =>
      have hwt : wfT t lvl := by simp only [wfF] at hwf; exact hwf.1
      have hwts : wfF ts lvl := by simp only [wfF] at hwf; exact hwf.2
      have hts_sz : sizeF ts < n := by
        have := sizeT_pos t; simp [sizeF] at hsz; omega
      cases t with
      | recordA nm fields =>
        have hl : lvl ≤ 127 := by simp only [wfT] at hwt; exact hwt.1
        have hnm0 : lvl = 0 → nm ≠ "" := by simp only [wfT] at hwt; exact hwt.2.1
        have hwff : wfF fields (lvl + 1) := by simp only [wfT] at hwt; exact hwt.2.2
        have hf_sz : sizeF fields < n := by simp [sizeF, sizeT] at hsz; omega
        have hstep := processRow_step st fn pkg obj nm "PL/SQL RECORD" lvl p hl hnm0 hp hplt
        rw [argOf_row_eq,
          la1Of_nonsimple st pkg obj nm "PL/SQL RECORD" lvl (by decide) hl] at hstep
        obtain ⟨heap1, hh1⟩ : ∃ x, x = (st.heap ++ [rowArg nm "PL/SQL RECORD"]).set p
            (attachTo (st.heap.getD p defaultArg) nm st.heap.length) := ⟨_, rfl⟩
        rw [← hh1] at hstep
        have hlen1 : heap1.length = st.heap.length + 1 := by rw [hh1]; simp
        have hpres1 : ∀ i, i ≠ p → i < st.heap.length → heap1.get? i = st.heap.get? i := by
          intro i hip hilt
          rw [hh1, List.get?_set_ne _ _ (Ne.symm hip), List.get?_append hilt]
        have hget1idx : heap1.get? st.heap.length = some (rowArg nm "PL/SQL RECORD") := by
          rw [hh1, List.get?_set_ne _ _ (by omega), List.get?_concat_length]
        have hget1p : heap1.get? p =
            some (attachTo (st.heap.getD p defaultArg) nm st.heap.length) := by
          rw [hh1]
          exact List.get?_set_eq_of_lt _ (by simp; omega)
        have hp2 : lookupL (((lvl : Int), st.heap.length) :: st.lastArgs)
            (((lvl + 1 : Nat) : Int) - 1) = some st.heap.length := by
          have hc : ((lvl + 1 : Nat) : Int) - 1 = (lvl : Int) := by push_cast; ring
          rw [hc, lookupL_cons_self]
        obtain ⟨heap2, la2, h2run, h2len, h2pres, h2par, ⟨pre2, h2laeq, h2keys⟩, h2cl, h2fl⟩ :=
          ih fields hf_sz pkg obj (lvl + 1)
            ⟨heap1, ((lvl : Int), st.heap.length) :: st.lastArgs⟩ fn st.heap.length
            hwff hp2 (show st.heap.length < heap1.length by omega)
        dsimp only at h2run h2len h2pres h2par h2laeq h2cl h2fl
        have hp3 : lookupL la2 ((lvl : Int) - 1) = some p := by
          rw [h2laeq, lookupL_append_not_mem pre2 _ _
            (fun q hq => by have := h2keys q hq; push_cast at this; omega),
            lookupL_cons_ne st.lastArgs _ _ _ (by omega)]
          exact hp
        obtain ⟨heap3, la3, h3run, h3len, h3pres, h3par, ⟨pre3, h3laeq, h3keys⟩, h3cl, h3fl⟩ :=
          ih ts hts_sz pkg obj lvl ⟨heap2, la2⟩ fn p hwts hp3
            (show p < heap2.length by omega)
        dsimp only at h3run h3len h3pres h3par h3laeq h3cl h3fl
        have hlab : labelsF (AForest.consF (ATree.recordA nm fields) ts) st.heap.length =
            (nm, st.heap.length) :: labelsF ts (st.heap.length + sizeT (ATree.recordA nm fields)) := by
          simp [labelsF, nameT]
        have hblen : st.heap.length + sizeT (ATree.recordA nm fields) = heap2.length := by
          simp [sizeT]; omega
        have hAflav : (rowArg nm "PL/SQL RECORD").flavor = Flavor.record := rfl
        have hAl : attachList (rowArg nm "PL/SQL RECORD") (labelsF fields heap1.length) =
            { rowArg nm "PL/SQL RECORD" with recordOf := labelsF fields heap1.length } := by
          rw [attachList_of_not_table _ _ (by rw [hAflav]; decide)]
          rfl
        refine ⟨heap3, la3, ?_, ?_, ?_, ?_, ?_, ?_, ?_⟩
        · have hrows : rowsF pkg obj (AForest.consF (ATree.recordA nm fields) ts) lvl =
              { packageName := pkg, objectName := obj, argumentName := nm,
                dataType := "PL/SQL RECORD", dataLevel := lvl } ::
                (rowsF pkg obj fields (lvl + 1) ++ rowsF pkg obj ts lvl) := by
            simp [rowsF, rowsT]
          rw [hrows]
          simp only [processRows]
          rw [hstep]
          show processRows ⟨heap1, ((lvl : Int), st.heap.length) :: st.lastArgs⟩ fn
            (rowsF pkg obj fields (lvl + 1) ++ rowsF pkg obj ts lvl) = _
          rw [processRows_append, h2run]
          exact h3run
        · simp [sizeF, sizeT]; omega
        · intro i hip hilt
          rw [h3pres i hip (by omega), h2pres i (by omega) (by omega), hpres1 i hip hilt]
        · have hpv : heap2.get? p = some (attachTo (st.heap.getD p defaultArg) nm st.heap.length) := by
            rw [h2pres p (by omega) (by omega)]
            exact hget1p
          rw [h3par, getD_eq _ _ _ hpv, hlab, hblen]
          rfl
        · refine ⟨pre3 ++ (pre2 ++ [((lvl : Int), st.heap.length)]), ?_, ?_⟩
          · rw [h3laeq, h2laeq]
            simp
          · intro q hq
            rcases List.mem_append.mp hq with hq3 | hq'
            · exact h3keys q hq3
            · rcases List.mem_append.mp hq' with hq2 | hq1
              · have := h2keys q hq2; push_cast at this; omega
              · simp at hq1; rw [hq1]
        · intro i a hi hget j hj
          by_cases hge2 : heap2.length ≤ i
          · exact h3cl i a hge2 hget j hj
          · push_neg at hge2
            have hgeti : heap2.get? i = some a := by
              rw [← h3pres i (by omega) hge2]; exact hget
            by_cases hidx_eq : i = st.heap.length
            · subst hidx_eq
              rw [h2par, getD_eq _ _ _ hget1idx, hAl] at hgeti
              have ha : a = { rowArg nm "PL/SQL RECORD" with recordOf := labelsF fields heap1.length } := by
                exact (Option.some.injEq _ _).mp hgeti.symm
              subst ha
              have hjm : j ∈ (labelsF fields heap1.length).map Prod.snd := by
                unfold childIdxs at hj
                simpa [rowArg] using hj
              rcases List.mem_map.mp hjm with ⟨q, hq, rfl⟩
              have := labelsF_bounds fields heap1.length q hq
              exact ⟨by omega, by omega⟩
            · have := h2cl i a (by omega) hgeti j hj
              exact ⟨this.1, by omega⟩
        · intro f hf
          have hf1 : 1 ≤ f := by simp [sizeF, sizeT] at hf; omega
          obtain ⟨f', rfl⟩ : ∃ f', f = f' + 1 := ⟨f - 1, by omega⟩
          rw [hlab, hblen, List.map_cons, flattenL_succ_cons]
          have hget3idx : heap3.get? st.heap.length =
              some { rowArg nm "PL/SQL RECORD" with recordOf := labelsF fields heap1.length } := by
            rw [h3pres st.heap.length (by omega) (by omega), h2par,
              getD_eq _ _ _ hget1idx, hAl]
          rw [hget3idx]
          have hcongr : flattenL heap3 f' ((labelsF fields heap1.length).map Prod.snd) (lvl + 1) =
              flattenL heap2 f' ((labelsF fields heap1.length).map Prod.snd) (lvl + 1) := by
            apply flattenL_congr heap2 heap3 heap1.length heap2.length
              (fun i hi1 hi2 => h3pres i (by omega) hi2)
              (fun i a hi1 _ hget j hj => h2cl i a hi1 hget j hj)
            intro j hjm
            rcases List.mem_map.mp hjm with ⟨q, hq, rfl⟩
            have := labelsF_bounds fields heap1.length q hq
            exact ⟨by omega, by omega⟩
          show flatNode (flattenL heap3 f') _ lvl ++ _ = _
          simp only [flatNode, rowArg]
          rw [hcongr, h2fl f' (by simp [sizeF, sizeT] at hf; omega),
            h3fl (f' + 1) (by simp [sizeF] at hf; omega)]
          rw [show flavorOfDataType "PL/SQL RECORD" = Flavor.record from rfl]
          simp [flattenAF, flattenA]
      | tableA nm e =>
        have hl : lvl ≤ 127 := by simp only [wfT] at hwt; exact hwt.1
        have hnm0 : lvl = 0 → nm ≠ "" := by simp only [wfT] at hwt; exact hwt.2.1
        have hwfe : wfT e (lvl + 1) := by simp only [wfT] at hwt; exact hwt.2.2
        have hwff : wfF (AForest.consF e AForest.nilF) (lvl + 1) := by
          simp only [wfF]; exact ⟨hwfe, trivial⟩
        have hse := sizeT_pos e
        have hf_sz : sizeF (AForest.consF e AForest.nilF) < n := by
          simp [sizeF, sizeT] at hsz ⊢; omega
        have hstep := processRow_step st fn pkg obj nm "PL/SQL TABLE" lvl p hl hnm0 hp hplt
        rw [argOf_row_eq,
          la1Of_nonsimple st pkg obj nm "PL/SQL TABLE" lvl (by decide) hl] at hstep
        obtain ⟨heap1, hh1⟩ : ∃ x, x = (st.heap ++ [rowArg nm "PL/SQL TABLE"]).set p
            (attachTo (st.heap.getD p defaultArg) nm st.heap.length) := ⟨_, rfl⟩
        rw [← hh1] at hstep
        have hlen1 : heap1.length = st.heap.length + 1 := by rw [hh1]; simp
        have hpres1 : ∀ i, i ≠ p → i < st.heap.length → heap1.get? i = st.heap.get? i := by
          intro i hip hilt
          rw [hh1, List.get?_set_ne _ _ (Ne.symm hip), List.get?_append hilt]
        have hget1idx : heap1.get? st.heap.length = some (rowArg nm "PL/SQL TABLE") := by
          rw [hh1, List.get?_set_ne _ _ (by omega), List.get?_concat_length]
        have hget1p : heap1.get? p =
            some (attachTo (st.heap.getD p defaultArg) nm st.heap.length) := by
          rw [hh1]
          exact List.get?_set_eq_of_lt _ (by simp; omega)
        have hp2 : lookupL (((lvl : Int), st.heap.length) :: st.lastArgs)
            (((lvl + 1 : Nat) : Int) - 1) = some st.heap.length := by
          have hc : ((lvl + 1 : Nat) : Int) - 1 = (lvl : Int) := by push_cast; ring
          rw [hc, lookupL_cons_self]
        obtain ⟨heap2, la2, h2run, h2len, h2pres, h2par, ⟨pre2, h2laeq, h2keys⟩, h2cl, h2fl⟩ :=
          ih (AForest.consF e AForest.nilF) hf_sz pkg obj (lvl + 1)
            ⟨heap1, ((lvl : Int), st.heap.length) :: st.lastArgs⟩ fn st.heap.length
            hwff hp2 (show st.heap.length < heap1.length by omega)
        dsimp only at h2run h2len h2pres h2par h2laeq h2cl h2fl
        have h2len' : heap2.length = heap1.length + sizeT e := by
          rw [h2len]; simp [sizeF]
        have hp3 : lookupL la2 ((lvl : Int) - 1) = some p := by
          rw [h2laeq, lookupL_append_not_mem pre2 _ _
            (fun q hq => by have := h2keys q hq; push_cast at this; omega),
            lookupL_cons_ne st.lastArgs _ _ _ (by omega)]
          exact hp
        obtain ⟨heap3, la3, h3run, h3len, h3pres, h3par, ⟨pre3, h3laeq, h3keys⟩, h3cl, h3fl⟩ :=
          ih ts hts_sz pkg obj lvl ⟨heap2, la2⟩ fn p hwts hp3
            (show p < heap2.length by omega)
        dsimp only at h3run h3len h3pres h3par h3laeq h3cl h3fl
        have hlab : labelsF (AForest.consF (ATree.tableA nm e) ts) st.heap.length =
            (nm, st.heap.length) :: labelsF ts (st.heap.length + sizeT (ATree.tableA nm e)) := by
          simp [labelsF, nameT]
        have hblen : st.heap.length + sizeT (ATree.tableA nm e) = heap2.length := by
          simp [sizeT]; omega
        have hlabE : labelsF (AForest.consF e AForest.nilF) heap1.length =
            [(nameT e, heap1.length)] := by simp [labelsF]
        have hAl : attachList (rowArg nm "PL/SQL TABLE") [(nameT e, heap1.length)] =
            { rowArg nm "PL/SQL TABLE" with tableOf := some heap1.length } := by
          show attachTo (rowArg nm "PL/SQL TABLE") (nameT e) heap1.length = _
          rw [attachTo_of_table _ _ _
            (show (rowArg nm "PL/SQL TABLE").flavor = Flavor.table from rfl)]
        refine ⟨heap3, la3, ?_, ?_, ?_, ?_, ?_, ?_, ?_⟩
        · have hrows : rowsF pkg obj (AForest.consF (ATree.tableA nm e) ts) lvl =
              { packageName := pkg, objectName := obj, argumentName := nm,
                dataType := "PL/SQL TABLE", dataLevel := lvl } ::
                (rowsF pkg obj (AForest.consF e AForest.nilF) (lvl + 1) ++
                  rowsF pkg obj ts lvl) := by
            simp [rowsF, rowsT]
          rw [hrows]
          simp only [processRows]
          rw [hstep]
          show processRows ⟨heap1, ((lvl : Int), st.heap.length) :: st.lastArgs⟩ fn
            (rowsF pkg obj (AForest.consF e AForest.nilF) (lvl + 1) ++ rowsF pkg obj ts lvl) = _
          rw [processRows_append, h2run]
          exact h3run
        · simp [sizeF, sizeT]; omega
        · intro i hip hilt
          rw [h3pres i hip (by omega), h2pres i (by omega) (by omega), hpres1 i hip hilt]
        · have hpv : heap2.get? p =
              some (attachTo (st.heap.getD p defaultArg) nm st.heap.length) := by
            rw [h2pres p (by omega) (by omega)]
            exact hget1p
          rw [h3par, getD_eq _ _ _ hpv, hlab, hblen]
          rfl
        · refine ⟨pre3 ++ (pre2 ++ [((lvl : Int), st.heap.length)]), ?_, ?_⟩
          · rw [h3laeq, h2laeq]
            simp
          · intro q hq
            rcases List.mem_append.mp hq with hq3 | hq'
            · exact h3keys q hq3
            · rcases List.mem_append.mp hq' with hq2 | hq1
              · have := h2keys q hq2; push_cast at this; omega
              · simp at hq1; rw [hq1]
        · intro i a hi hget j hj
          by_cases hge2 : heap2.length ≤ i
          · exact h3cl i a hge2 hget j hj
          · push_neg at hge2
            have hgeti : heap2.get? i = some a := by
              rw [← h3pres i (by omega) hge2]; exact hget
            by_cases hidx_eq : i = st.heap.length
            · subst hidx_eq
              rw [h2par, getD_eq _ _ _ hget1idx, hlabE, hAl] at hgeti
              have ha : a = { rowArg nm "PL/SQL TABLE" with tableOf := some heap1.length } := by
                exact (Option.some.injEq _ _).mp hgeti.symm
              subst ha
              have hjm : j = heap1.length := by
                simpa [childIdxs, rowArg] using hj
              subst hjm
              exact ⟨by omega, by omega⟩
            · have := h2cl i a (by omega) hgeti j hj
              exact ⟨this.1, by omega⟩
        · intro f hf
          have hf1 : 1 ≤ f := by simp [sizeF, sizeT] at hf; omega
          obtain ⟨f', rfl⟩ : ∃ f', f = f' + 1 := ⟨f - 1, by omega⟩
          rw [hlab, hblen, List.map_cons, flattenL_succ_cons]
          have hget3idx : heap3.get? st.heap.length =
              some { rowArg nm "PL/SQL TABLE" with tableOf := some heap1.length } := by
            rw [h3pres st.heap.length (by omega) (by omega), h2par,
              getD_eq _ _ _ hget1idx, hlabE, hAl]
          rw [hget3idx]
          have hcongr : flattenL heap3 f' [heap1.length] (lvl + 1) =
              flattenL heap2 f' [heap1.length] (lvl + 1) := by
            apply flattenL_congr heap2 heap3 heap1.length heap2.length
              (fun i hi1 hi2 => h3pres i (by omega) hi2)
              (fun i a hi1 _ hget j hj => h2cl i a hi1 hget j hj)
            intro j hjm
            simp at hjm
            subst hjm
            exact ⟨by omega, by omega⟩
          have h2fl' := h2fl f' (by simp [sizeF, sizeT] at hf ⊢; omega)
          rw [hlabE] at h2fl'
          simp only [List.map_cons, List.map_nil] at h2fl'
          show flatNode (flattenL heap3 f') _ lvl ++ _ = _
          simp only [flatNode, rowArg]
          rw [show flavorOfDataType "PL/SQL TABLE" = Flavor.table from rfl]
          rw [hcongr, h2fl', h3fl (f' + 1) (by simp [sizeF] at hf; omega)]
          simp [flattenAF, flattenA]
      | simpleA nm dt =>
        have hl : lvl ≤ 127 := by simp only [wfT] at hwt; exact hwt.1
        have hfsimp : flavorOfDataType dt = Flavor.simple := by
          simp only [wfT] at hwt; exact hwt.2.1
        have hnm0 : lvl = 0 → nm ≠ "" := by simp only [wfT] at hwt; exact hwt.2.2
        have hstep := processRow_step st fn pkg obj nm dt lvl p hl hnm0 hp hplt
        rw [argOf_row_eq, la1Of_simple st pkg obj nm dt lvl hfsimp] at hstep
        obtain ⟨heap1, hh1⟩ : ∃ x, x = (st.heap ++ [rowArg nm dt]).set p
            (attachTo (st.heap.getD p defaultArg) nm st.heap.length) := ⟨_, rfl⟩
        rw [← hh1] at hstep
        have hlen1 : heap1.length = st.heap.length + 1 := by rw [hh1]; simp
        have hpres1 : ∀ i, i ≠ p → i < st.heap.length → heap1.get? i = st.heap.get? i := by
          intro i hip hilt
          rw [hh1, List.get?_set_ne _ _ (Ne.symm hip), List.get?_append hilt]
        have hget1idx : heap1.get? st.heap.length = some (rowArg nm dt) := by
          rw [hh1, List.get?_set_ne _ _ (by omega), List.get?_concat_length]
        have hget1p : heap1.get? p =
            some (attachTo (st.heap.getD p defaultArg) nm st.heap.length) := by
          rw [hh1]
          exact List.get?_set_eq_of_lt _ (by simp; omega)
        obtain ⟨heap3, la3, h3run, h3len, h3pres, h3par, ⟨pre3, h3laeq, h3keys⟩, h3cl, h3fl⟩ :=
          ih ts hts_sz pkg obj lvl ⟨heap1, st.lastArgs⟩ fn p hwts hp
            (show p < heap1.length by omega)
        dsimp only at h3run h3len h3pres h3par h3laeq h3cl h3fl
        have hlab : labelsF (AForest.consF (ATree.simpleA nm dt) ts) st.heap.length =
            (nm, st.heap.length) :: labelsF ts (st.heap.length + sizeT (ATree.simpleA nm dt)) := by
          simp [labelsF, nameT]
        have hblen : st.heap.length + sizeT (ATree.simpleA nm dt) = heap1.length := by
          simp [sizeT]; omega
        refine ⟨heap3, la3, ?_, ?_, ?_, ?_, ?_, ?_, ?_⟩
        · have hrows : rowsF pkg obj (AForest.consF (ATree.simpleA nm dt) ts) lvl =
              { packageName := pkg, objectName := obj, argumentName := nm,
                dataType := dt, dataLevel := lvl } :: rowsF pkg obj ts lvl := by
            simp [rowsF, rowsT]
          rw [hrows]
          simp only [processRows]
          rw [hstep]
          show processRows ⟨heap1, st.lastArgs⟩ fn (rowsF pkg obj ts lvl) = _
          exact h3run
        · simp [sizeF, sizeT]; omega
        · intro i hip hilt
          rw [h3pres i hip (by omega), hpres1 i hip hilt]
        · rw [h3par, getD_eq _ _ _ hget1p, hlab, hblen]
          rfl
        · exact ⟨pre3, h3laeq, h3keys⟩
        · intro i a hi hget j hj
          by_cases hge1 : heap1.length ≤ i
          · exact h3cl i a hge1 hget j hj
          · have hieq : i = st.heap.length := by omega
            subst hieq
            have hgeti : heap1.get? st.heap.length = some a := by
              rw [← h3pres _ (by omega) (by omega)]; exact hget
            rw [hget1idx] at hgeti
            have ha : a = rowArg nm dt := by
              exact (Option.some.injEq _ _).mp hgeti.symm
            subst ha
            simp [childIdxs, rowArg] at hj
        · intro f hf
          have hf1 : 1 ≤ f := by simp [sizeF, sizeT] at hf; omega
          obtain ⟨f', rfl⟩ : ∃ f', f = f' + 1 := ⟨f - 1, by omega⟩
          rw [hlab, hblen, List.map_cons, flattenL_succ_cons]
          have hget3idx : heap3.get? st.heap.length = some (rowArg nm dt) := by
            rw [h3pres st.heap.length (by omega) (by omega)]
            exact hget1idx
          rw [hget3idx]
          show flatNode (flattenL heap3 f') _ lvl ++ _ = _
          simp only [flatNode, rowArg, hfsimp]
          rw [h3fl (f' + 1) (by simp [sizeF] at hf; omega)]
          simp [flattenAF, flattenA]

lemma rowsF_cons_head (pkg obj : String) (t : ATree) (ts : AForest) (lvl : Nat) :
    ∃ dt rest, rowsF pkg obj (AForest.consF t ts) lvl =
      { packageName := pkg, objectName := obj, argumentName := nameT t,
        dataType := dt, dataLevel := lvl } :: rest := by
  cases t with
  | simpleA n d =>
    exact ⟨d, rowsF pkg obj ts lvl, by simp [rowsF, rowsT, nameT]⟩
  | recordA n fs =>
    exact ⟨"PL/SQL RECORD", rowsF pkg obj fs (lvl + 1) ++ rowsF pkg obj ts lvl,
      by simp [rowsF, rowsT, nameT]⟩
  | tableA n e =>
    exact ⟨"PL/SQL TABLE", rowsT pkg obj e (lvl + 1) ++ rowsF pkg obj ts lvl,
      by simp [rowsF, rowsT, nameT]⟩

/-- C1: round-trip of tree reconstruction.  For every well-formed
pre-order-flattened batch (`rowsF` of a nonempty forest: levels within
int8 range, scalar leaves, level-0 rows named), `ParseArguments` on
that single batch produces exactly one `FuncResult`, and re-flattening
its argument trees in pre-order (`flattenArgs` over the result heap)
reproduces the batch's level sequence and argument names. -/
theorem C1_preorder_roundtrip (pkg obj : String) (t0 : ATree) (ts0 : AForest)
    (hobj : obj ≠ "") (hhash : backS obj ≠ '#')
    (hwf : wfF (AForest.consF t0 ts0) 0) :
    ∃ res, ParseArguments [rowsF pkg obj (AForest.consF t0 ts0) 0] none = Except.ok [res] ∧
      ∀ fuel, sizeF (AForest.consF t0 ts0) ≤ fuel →
        flattenArgs res.heap fuel res.fn.args 0 =
          (rowsF pkg obj (AForest.consF t0 ts0) 0).map
            (fun ua => (ua.dataLevel, ua.argumentName)) := by
  obtain ⟨dt0, rest0, hrows⟩ := rowsF_cons_head pkg obj t0 ts0 0
  have hp0 : lookupL ([((-1 : Int), 0)]) (((0 : Nat) : Int) - 1) = some 0 := by
    norm_num [lookupL, List.find?]
  obtain ⟨heap', la', hrun, hlen, hpres, hpar, ⟨pre, hlaeq, hkeys⟩, hcl, hfl⟩ :=
    buildRows (sizeF (AForest.consF t0 ts0) + 1) (AForest.consF t0 ts0) (by omega) pkg obj 0
      ⟨[{ flavor := Flavor.record }], [((-1 : Int), 0)]⟩
      { Package := pkg, name := obj, lastDDL := "" } 0 hwf hp0 (by simp)
  dsimp only at hrun hlen hpres hpar hlaeq hcl hfl
  simp only [List.length_singleton] at hlen hpres hpar hcl hfl
  have hroot : lookupL la' (-1) = some 0 := by
    rw [hlaeq, lookupL_append_not_mem pre _ _
      (fun q hq => by have := hkeys q hq; omega)]
    exact lookupL_cons_self [] (-1) 0
  have hrootval : heap'.getD 0 defaultArg =
      { ({ flavor := Flavor.record } : Argument) with recordOf := labelsF (AForest.consF t0 ts0) 1 } := by
    apply getD_eq
    rw [hpar]
    rw [show ([({ flavor := Flavor.record } : Argument)].getD 0 defaultArg) =
      ({ flavor := Flavor.record } : Argument) from rfl]
    rw [attachList_of_not_table _ _ (by decide)]
    simp
  have hargsroot : (heap'.getD ((lookupL la' (-1)).getD 0) defaultArg).recordOf =
      labelsF (AForest.consF t0 ts0) 1 := by
    rw [hroot]
    show (heap'.getD 0 defaultArg).recordOf = _
    rw [hrootval]
  have hpb : ParseArguments [rowsF pkg obj (AForest.consF t0 ts0) 0] none =
      Except.ok [FuncResult.mk
        { Package := pkg, name := obj, lastDDL := "",
          args := (labelsF (AForest.consF t0 ts0) 1).map
            (fun q => heap'.getD q.2 defaultArg) } heap'] := by
    rw [hrows]
    show (match parseBatch none ({ packageName := pkg, objectName := obj, argumentName := nameT t0, dataType := dt0, dataLevel := 0 } :: rest0) with
      | Except.error e => Except.error e
      | Except.ok none => ParseArguments [] none
      | Except.ok (some r) =>
        match ParseArguments [] none with
        | Except.error e => Except.error e
        | Except.ok rs => Except.ok (r :: rs)) = _
    rw [parseBatch_cons]
    dsimp only
    rw [if_neg hobj, if_neg hhash, ← hrows, hrun]
    dsimp only
    rw [hargsroot]
    simp [ParseArguments]
  refine ⟨_, hpb, ?_⟩
  intro fuel hfuel
  dsimp only
  have hmap : (labelsF (AForest.consF t0 ts0) 1).map (fun q => heap'.getD q.2 defaultArg) =
      ((labelsF (AForest.consF t0 ts0) 1).map Prod.snd).map
        (fun i => heap'.getD i defaultArg) := by
    simp [List.map_map, Function.comp]
  rw [hmap, flattenArgs_eq_flattenL heap' fuel _ 0 ?hb]
  case hb =>
    intro i him
    rcases List.mem_map.mp him with ⟨q, hq, rfl⟩
    have := labelsF_bounds (AForest.consF t0 ts0) 1 q hq
    omega
  rw [hfl (fuel + 1) (by omega)]
  exact (rowsF_map_flatten (sizeF (AForest.consF t0 ts0) + 1) (AForest.consF t0 ts0)
    (by omega) pkg obj 0).symm

/-- Witness for C1: a table of a record of two scalars round-trips. -/
theorem C1_preorder_roundtrip_witness :
    ("F" : String) ≠ "" ∧ backS "F" ≠ '#' ∧
    wfF (AForest.consF
      (ATree.tableA "t" (ATree.recordA ""
        (AForest.consF (ATree.simpleA "f1" "VARCHAR2")
          (AForest.consF (ATree.simpleA "f2" "NUMBER") AForest.nilF))))
      AForest.nilF) 0 ∧
    (∃ res, ParseArguments
        [rowsF "P" "F" (AForest.consF
          (ATree.tableA "t" (ATree.recordA ""
            (AForest.consF (ATree.simpleA "f1" "VARCHAR2")
              (AForest.consF (ATree.simpleA "f2" "NUMBER") AForest.nilF))))
          AForest.nilF) 0] none = Except.ok [res] ∧
      ∀ fuel, sizeF (AForest.consF
          (ATree.tableA "t" (ATree.recordA ""
            (AForest.consF (ATree.simpleA "f1" "VARCHAR2")
              (AForest.consF (ATree.simpleA "f2" "NUMBER") AForest.nilF))))
          AForest.nilF) ≤ fuel →
        flattenArgs res.heap fuel res.fn.args 0 =
          (rowsF "P" "F" (AForest.consF
            (ATree.tableA "t" (ATree.recordA ""
              (AForest.consF (ATree.simpleA "f1" "VARCHAR2")
                (AForest.consF (ATree.simpleA "f2" "NUMBER") AForest.nilF))))
            AForest.nilF) 0).map (fun ua => (ua.dataLevel, ua.argumentName))) := by
  have hwf : wfF (AForest.consF
      (ATree.tableA "t" (ATree.recordA ""
        (AForest.consF (ATree.simpleA "f1" "VARCHAR2")
          (AForest.consF (ATree.simpleA "f2" "NUMBER") AForest.nilF))))
      AForest.nilF) 0 := by
    simp [wfF, wfT, flavorOfDataType]
  exact ⟨by decide, by decide, hwf,
    C1_preorder_roundtrip "P" "F" _ _ (by decide) (by decide) hwf⟩

end Oracall
